import Mathlib

/-!
Verification development for the MeM-8 tiered temporal memory store.

The Rust sources under `src/memory/` are shallowly embedded:
  * machine integers (`u16`, `u32`, `u64`) become `Nat`, with `% 2^w`
    truncation written explicitly where the source relies on it;
  * `f32` arithmetic (personality scores, decay factors) is modelled
    exactly over `ℚ`; the claims under study never depend on `f32`
    rounding at a point where the rational model and `f32` disagree,
    and every counterexample below is chosen so that the `f32`
    computation is exact (small dyadic values);
  * `HashMap`/`HashSet`/`BTreeMap` state becomes association lists whose
    list order models the (unspecified) iteration order of the Rust
    containers; insertion of an existing key replaces in place, and a
    fresh key is appended;
  * wall-clock reads (`SystemTime::now`, timestamps baked into file
    names) become explicit `now` parameters to each operation;
  * the filesystem becomes an association list from file name to byte
    list; file names under one directory are modelled by the `Nat`
    timestamp or epoch embedded in the name;
  * fallible operations return `Except`/`Option`.
-/

namespace MeM8

/-! ### Association-list maps (model of HashMap / BTreeMap) -/

/-- Lookup in an association list (model of `HashMap::get` / `BTreeMap::get`). -/
def alookup {α β : Type} [DecidableEq α] (l : List (α × β)) (k : α) : Option β :=
  (l.find? (fun p => decide (p.1 = k))).map Prod.snd

/-- Insert-or-replace (model of `HashMap::insert` / `BTreeMap::insert`).
A present key is replaced in place (iteration position preserved), a fresh
key is appended; since the iteration order of the Rust maps is
unspecified, any consistent choice is a faithful model. -/
def aInsert {α β : Type} [DecidableEq α] (l : List (α × β)) (k : α) (v : β) :
    List (α × β) :=
  if (l.find? (fun p => decide (p.1 = k))).isSome then
    l.map (fun p => if p.1 = k then (k, v) else p)
  else
    l ++ [(k, v)]

/-- Remove a key (model of `HashMap::remove`). -/
def aRemove {α β : Type} [DecidableEq α] (l : List (α × β)) (k : α) :
    List (α × β) :=
  l.filter (fun p => decide (p.1 ≠ k))

/-- `HashSet::insert` on a duplicate-free list model of a set. -/
def sInsert (l : List Nat) (x : Nat) : List Nat :=
  if x ∈ l then l else l ++ [x]

/-- `HashSet::remove`. -/
def sRemove (l : List Nat) (x : Nat) : List Nat :=
  l.filter (fun y => decide (y ≠ x))

/-! ### MemoryEntry (src/memory/entry.rs) -/

/-- `MemoryEntry`: epoch pointer (u32), token (u16), weight (u16) and two
weak links (u32, 0 = absent). -/
structure MemoryEntry where
  epoch_pointer : Nat
  token : Nat
  weight : Nat
  link1 : Nat
  link2 : Nat
deriving Repr, DecidableEq

/-- `MemoryEntry::epoch`. -/
def MemoryEntry.epoch (e : MemoryEntry) : Nat := e.epoch_pointer

/-- `MemoryEntry::links`. -/
def MemoryEntry.links (e : MemoryEntry) : Nat × Nat := (e.link1, e.link2)

/-- `MemoryEntry::age_from`: `current_epoch.saturating_sub(epoch_pointer)`
(`Nat` subtraction is saturating). -/
def MemoryEntry.age_from (e : MemoryEntry) (current_epoch : Nat) : Nat :=
  current_epoch - e.epoch_pointer

/-! ### PersonalityCache (src/memory/personality_cache.rs) -/

/-- `PersonalityScore`; `link_strength` is an `f32` in the source,
modelled exactly over `ℚ`; `last_access : SystemTime` is modelled as the
`Nat` clock value passed to the mutating operation. -/
structure PersonalityScore where
  weight : Nat
  access_count : Nat
  link_strength : ℚ
  last_access : Nat
deriving Repr, DecidableEq

/-- The `entries : HashMap<u32, (MemoryEntry, PersonalityScore)>` field,
as an association list in iteration order. -/
abbrev CacheEntries := List (Nat × MemoryEntry × PersonalityScore)

/-- The `token_index : BTreeMap<u16, HashSet<u32>>` field. -/
abbrev TokenIndex := List (Nat × List Nat)

/-- `PersonalityCache` state (the `RwLock`s guard interleaving only; each
operation below is one full critical section). -/
structure PersonalityCache where
  entries : CacheEntries
  token_index : TokenIndex
  max_entries : Nat
  personality_threshold : ℚ
deriving Repr, DecidableEq

/-- `PersonalityCache::new`. -/
def PersonalityCache.new (max_entries : Nat) (personality_threshold : ℚ) :
    PersonalityCache :=
  { entries := [], token_index := [],
    max_entries := max_entries, personality_threshold := personality_threshold }

/-- `PersonalityCache::calculate_personality_score`: sums, over the
non-zero links that resolve to a cached entry, `score.weight / u16::MAX`,
and divides by 2. -/
def calculate_personality_score (entries : CacheEntries) (e : MemoryEntry)
    (now : Nat) : PersonalityScore :=
  let link_strength : ℚ :=
    ((([e.link1, e.link2].filter (fun l => decide (l ≠ 0))).filterMap
        (fun l => alookup entries l)).map
      (fun p => (p.2.weight : ℚ) / 65535)).sum / 2
  { weight := e.weight, access_count := 0,
    link_strength := link_strength, last_access := now }

/-- `evict_score = weight as f32 * link_strength` (exact over `ℚ`). -/
def evictScore (s : PersonalityScore) : ℚ := (s.weight : ℚ) * s.link_strength

/-- `Iterator::min_by` over the entries map: returns the minimum under
`evictScore`; when several elements are equally minimal, the **first** one
in iteration order is returned (`Iterator::min_by` folds with
`cmp::min_by`, which keeps its first argument on `Ordering::Equal`, so
the accumulator is replaced only by a strictly smaller element). -/
def minByFirst (l : CacheEntries) : Option (Nat × MemoryEntry × PersonalityScore) :=
  l.foldl
    (fun acc x =>
      match acc with
      | none => some x
      | some a => if evictScore x.2.2 < evictScore a.2.2 then some x else some a)
    none

/-- `PersonalityCache::evict_lowest_scoring`: removes the `min_by` entry
from `entries` and removes its epoch from the token-index set at the
evicted entry's **own** token only (`token_index.get_mut(&entry.token())`);
no other set is touched and an emptied set is not dropped. -/
def evict_lowest_scoring (entries : CacheEntries) (token_index : TokenIndex) :
    CacheEntries × TokenIndex :=
  match minByFirst entries with
  | none => (entries, token_index)
  | some (epoch, v, _) =>
    let entries' := aRemove entries epoch
    let token_index' :=
      match alookup token_index v.token with
      | some s => aInsert token_index v.token (sRemove s epoch)
      | none => token_index
    (entries', token_index')

/-- `PersonalityCache::update_memory`. `related_tokens : HashSet<u16>` is
modelled as a list in iteration order. -/
def PersonalityCache.update_memory (c : PersonalityCache) (e : MemoryEntry)
    (related_tokens : List Nat) (now : Nat) : PersonalityCache × Bool :=
  let epoch := e.epoch
  let score := calculate_personality_score c.entries e now
  if c.personality_threshold ≤ score.link_strength then
    let (ent1, ti1) :=
      if c.max_entries ≤ c.entries.length then
        evict_lowest_scoring c.entries c.token_index
      else (c.entries, c.token_index)
    let ti2 :=
      match alookup ti1 e.token with
      | some s => aInsert ti1 e.token (sInsert s epoch)
      | none => ti1 ++ [(e.token, [epoch])]
    let ti3 := related_tokens.foldl
      (fun ti t =>
        match alookup ti t with
        | some s => aInsert ti t (sInsert s epoch)
        | none => ti ++ [(t, [epoch])])
      ti2
    ({ c with entries := aInsert ent1 epoch (e, score), token_index := ti3 }, true)
  else (c, false)

/-- `PersonalityCache::get_memory`: on a hit bumps `access_count`, sets
`last_access := now` and re-inserts; returns a clone of the entry. -/
def PersonalityCache.get_memory (c : PersonalityCache) (epoch : Nat) (now : Nat) :
    PersonalityCache × Option MemoryEntry :=
  match alookup c.entries epoch with
  | some (e, s) =>
    let s' := { s with access_count := s.access_count + 1, last_access := now }
    ({ c with entries := aInsert c.entries epoch (e, s') }, some e)
  | none => (c, none)

/-- `PersonalityCache::find_related_memories`. -/
def PersonalityCache.find_related_memories (c : PersonalityCache)
    (token : Nat) (limit : Nat) : List MemoryEntry :=
  match alookup c.token_index token with
  | some epochs =>
    ((epochs.filterMap (fun ep => alookup c.entries ep)).map Prod.fst).take limit
  | none => []

/-- `CacheStats`. -/
structure CacheStats where
  total_entries : Nat
  avg_weight : ℚ
  avg_link_strength : ℚ
  cache_hit_rate : ℚ
deriving Repr, DecidableEq

/-- `PersonalityCache::stats`. The averages divide by `entries.len()`
(in Rust an `f32` division, `NaN` on an empty cache; over `ℚ` division by
zero yields 0 — no claim depends on the empty-cache averages).
`cache_hit_rate` is the literal constant `0.0` in the source. -/
def PersonalityCache.stats (c : PersonalityCache) : CacheStats :=
  { total_entries := c.entries.length,
    avg_weight := ((c.entries.map (fun p => (p.2.2.weight : ℚ))).sum) / c.entries.length,
    avg_link_strength := ((c.entries.map (fun p => p.2.2.link_strength)).sum) / c.entries.length,
    cache_hit_rate := 0 }

/-- One observable PersonalityCache operation, with its clock value. -/
inductive CacheOp where
  | update (e : MemoryEntry) (related_tokens : List Nat) (now : Nat)
  | get (epoch : Nat) (now : Nat)
  | findRelated (token : Nat) (limit : Nat)
deriving Repr

/-- State transition of one cache operation (`find_related_memories` and
`stats` take shared access and do not mutate). -/
def applyCacheOp (c : PersonalityCache) : CacheOp → PersonalityCache
  | .update e r n => (c.update_memory e r n).1
  | .get ep n => (c.get_memory ep n).1
  | .findRelated _ _ => c

/-- Run a sequence of cache operations. -/
def runCacheOps (c : PersonalityCache) (ops : List CacheOp) : PersonalityCache :=
  ops.foldl applyCacheOp c

end MeM8
namespace MeM8

/-! ### Association-list lemmas -/

theorem alookup_cons {α β : Type} [DecidableEq α] (a : α × β) (l : List (α × β)) (k : α) :
    alookup (a :: l) k = if a.1 = k then some a.2 else alookup l k := by
  by_cases h : a.1 = k
  · simp [alookup, List.find?_cons_of_pos, h]
  · rw [alookup, List.find?_cons_of_neg _ (by simpa using h), if_neg h]
    rfl

theorem alookup_aRemove_self {α β : Type} [DecidableEq α] (l : List (α × β)) (k : α) :
    alookup (aRemove l k) k = none := by
  induction l with
  | nil => rfl
  | cons a l ih =>
    by_cases h : a.1 = k
    · simpa [aRemove, List.filter_cons, h] using ih
    · rw [aRemove, List.filter_cons] at *
      simpa [h, alookup_cons] using ih

theorem alookup_map_replace {α β : Type} [DecidableEq α] (l : List (α × β)) (k : α) (v : β)
    (h : (l.find? (fun p => decide (p.1 = k))).isSome) :
    alookup (l.map (fun p => if p.1 = k then (k, v) else p)) k = some v := by
  induction l with
  | nil => simp [List.find?] at h
  | cons a l ih =>
    by_cases hk : a.1 = k
    · simp [hk, alookup_cons]
    · rw [List.find?_cons_of_neg _ (by simpa using hk)] at h
      simpa [hk, alookup_cons] using ih h

theorem alookup_append_single {α β : Type} [DecidableEq α] (l : List (α × β)) (k : α) (v : β)
    (h : (l.find? (fun p => decide (p.1 = k))).isSome = false) :
    alookup (l ++ [(k, v)]) k = some v := by
  induction l with
  | nil => simp [alookup_cons]
  | cons a l ih =>
    by_cases hk : a.1 = k
    · rw [List.find?_cons_of_pos _ (by simpa using hk)] at h
      simp at h
    · rw [List.find?_cons_of_neg _ (by simpa using hk)] at h
      simpa [alookup_cons, hk] using ih h

theorem alookup_aInsert_self {α β : Type} [DecidableEq α] (l : List (α × β)) (k : α) (v : β) :
    alookup (aInsert l k v) k = some v := by
  rw [aInsert]
  by_cases h : (l.find? (fun p => decide (p.1 = k))).isSome
  · rw [if_pos h]; exact alookup_map_replace l k v h
  · rw [if_neg h]
    exact alookup_append_single l k v (Bool.eq_false_iff.mpr h)

theorem alookup_map_replace_ne {α β : Type} [DecidableEq α] (l : List (α × β)) (k k' : α)
    (v : β) (h : k' ≠ k) :
    alookup (l.map (fun p => if p.1 = k then (k, v) else p)) k' = alookup l k' := by
  induction l with
  | nil => rfl
  | cons a l ih =>
    have hkk : ¬ (k = k') := fun hh => h hh.symm
    by_cases hk : a.1 = k
    · have ha : ¬ (a.1 = k') := fun hh => hkk (hk.symm.trans hh)
      rw [List.map_cons, if_pos hk, alookup_cons, alookup_cons, ih, if_neg ha]
      exact if_neg hkk
    · rw [List.map_cons, if_neg hk, alookup_cons, alookup_cons, ih]

theorem alookup_append_single_ne {α β : Type} [DecidableEq α] (l : List (α × β)) (k k' : α)
    (v : β) (h : k' ≠ k) :
    alookup (l ++ [(k, v)]) k' = alookup l k' := by
  induction l with
  | nil =>
    have hkk : ¬ (k = k') := fun hh => h hh.symm
    simp [alookup_cons, hkk, alookup]
  | cons a l ih =>
    rw [List.cons_append, alookup_cons, alookup_cons, ih]

theorem alookup_aInsert_ne {α β : Type} [DecidableEq α] (l : List (α × β)) (k k' : α) (v : β)
    (h : k' ≠ k) : alookup (aInsert l k v) k' = alookup l k' := by
  rw [aInsert]
  split
  · exact alookup_map_replace_ne l k k' v h
  · exact alookup_append_single_ne l k k' v h

/-! ### Minimum-selection lemmas for eviction -/

theorem minByFirst_foldl_aux (l : CacheEntries) (a : Nat × MemoryEntry × PersonalityScore) :
    ∃ m, l.foldl
        (fun acc x =>
          match acc with
          | none => some x
          | some b => if evictScore x.2.2 < evictScore b.2.2 then some x else some b)
        (some a) = some m ∧
      (m = a ∨ m ∈ l) ∧ evictScore m.2.2 ≤ evictScore a.2.2 ∧
      ∀ x ∈ l, evictScore m.2.2 ≤ evictScore x.2.2 := by
  induction l generalizing a with
  | nil => exact ⟨a, rfl, Or.inl rfl, le_refl _, by simp⟩
  | cons x l ih =>
    by_cases hx : evictScore x.2.2 < evictScore a.2.2
    · obtain ⟨m, hm, hmem, hle, hall⟩ := ih x
      refine ⟨m, by simpa [hx] using hm, ?_, le_trans hle (le_of_lt hx), ?_⟩
      · rcases hmem with h | h
        · exact Or.inr (by simp [h])
        · exact Or.inr (by simp [h])
      · intro y hy
        rcases List.mem_cons.mp hy with h | h
        · subst h; exact hle
        · exact hall y h
    · obtain ⟨m, hm, hmem, hle, hall⟩ := ih a
      refine ⟨m, by simpa [hx] using hm, ?_, hle, ?_⟩
      · rcases hmem with h | h
        · exact Or.inl h
        · exact Or.inr (by simp [h])
      · intro y hy
        rcases List.mem_cons.mp hy with h | h
        · subst h; exact le_trans hle (le_of_not_lt hx)
        · exact hall y h

theorem minByFirst_spec (l : CacheEntries) (h : l ≠ []) :
    ∃ m, minByFirst l = some m ∧ m ∈ l ∧
      ∀ x ∈ l, evictScore m.2.2 ≤ evictScore x.2.2 := by
  match l, h with
  | a :: l, _ =>
    obtain ⟨m, hm, hmem, hle, hall⟩ := minByFirst_foldl_aux l a
    refine ⟨m, hm, ?_, ?_⟩
    · rcases hmem with h | h
      · simp [h]
      · exact List.mem_cons_of_mem _ h
    · intro x hx
      rcases List.mem_cons.mp hx with h | h
      · subst h; exact hle
      · exact hall x h

end MeM8

namespace MeM8

/-! ### Claims C1, C8, C9 — PersonalityCache -/

/-- A capacity-1, threshold-0 cache after admitting epoch 10 (token 5,
related token 7) and then epoch 20 (token 6, no related tokens); the
second admission evicts epoch 10. -/
def orphanCache : PersonalityCache :=
  ((((PersonalityCache.new 1 0).update_memory
      ⟨10, 5, 500, 0, 0⟩ [7] 100).1).update_memory
      ⟨20, 6, 400, 0, 0⟩ [] 101).1

/-- C1 (counterexample): the no-orphans invariant fails: after the two
admissions in `orphanCache`, epoch 10 has been evicted from `entries`
but still sits in `token_index[7]` (it was registered there under
`related_tokens` and eviction only cleans the set at the entry's own
token 5), and the emptied set at token 5 is not dropped from the map. -/
theorem personality_cache_orphan_after_eviction :
    alookup orphanCache.token_index 7 = some [10] ∧
      alookup orphanCache.entries 10 = none ∧
      alookup orphanCache.token_index 5 = some [] := by
  norm_num [orphanCache, PersonalityCache.new, PersonalityCache.update_memory,
    calculate_personality_score, evict_lowest_scoring, minByFirst, evictScore,
    alookup, aInsert, aRemove, sInsert, sRemove, MemoryEntry.epoch, List.find?,
    List.filter, List.filterMap, List.foldl]

/-- C1 (amended): what `evict_lowest_scoring` actually guarantees: the
evicted entry (the `min_by` choice) disappears from `entries` and its
epoch is removed from the token-index set at the evicted entry's own
token; every set at a different token is left unchanged (so epochs
recorded there under `related_tokens` persist as orphans), and an emptied
set stays in the map rather than being dropped. -/
theorem evict_lowest_scoring_cleans_only_own_token
    (entries : CacheEntries) (token_index : TokenIndex) (h : entries ≠ []) :
    ∃ ep v s, minByFirst entries = some (ep, v, s) ∧
      alookup (evict_lowest_scoring entries token_index).1 ep = none ∧
      (∀ t, t ≠ v.token →
        alookup (evict_lowest_scoring entries token_index).2 t = alookup token_index t) ∧
      (∀ st, alookup token_index v.token = some st →
        alookup (evict_lowest_scoring entries token_index).2 v.token =
          some (sRemove st ep)) := by
  obtain ⟨⟨ep, v, s⟩, hm, _, _⟩ := minByFirst_spec entries h
  refine ⟨ep, v, s, hm, ?_, ?_, ?_⟩
  · rw [evict_lowest_scoring, hm]
    exact alookup_aRemove_self entries ep
  · intro t ht
    rw [evict_lowest_scoring, hm]
    cases hl : alookup token_index v.token with
    | none => simp only [hl]
    | some st =>
      simp only [hl]
      exact alookup_aInsert_ne token_index v.token t _ ht
  · intro st hst
    rw [evict_lowest_scoring, hm]
    simp only [hst]
    exact alookup_aInsert_self token_index v.token (sRemove st ep)

/-- C1 (witness for the amended theorem) at a concrete one-entry cache
state. -/
theorem evict_lowest_scoring_cleans_only_own_token_witness :
    ([(1, ⟨1, 5, 100, 0, 0⟩, ⟨100, 0, 0, 0⟩)] : CacheEntries) ≠ [] ∧
      (∃ ep v s,
        minByFirst [(1, ⟨1, 5, 100, 0, 0⟩, ⟨100, 0, 0, 0⟩)] = some (ep, v, s) ∧
        alookup (evict_lowest_scoring
          [(1, ⟨1, 5, 100, 0, 0⟩, ⟨100, 0, 0, 0⟩)] [(5, [1])]).1 ep = none ∧
        (∀ t, t ≠ v.token →
          alookup (evict_lowest_scoring
            [(1, ⟨1, 5, 100, 0, 0⟩, ⟨100, 0, 0, 0⟩)] [(5, [1])]).2 t =
            alookup [(5, [1])] t) ∧
        (∀ st, alookup [(5, [1])] v.token = some st →
          alookup (evict_lowest_scoring
            [(1, ⟨1, 5, 100, 0, 0⟩, ⟨100, 0, 0, 0⟩)] [(5, [1])]).2 v.token =
            some (sRemove st ep))) :=
  ⟨by simp, evict_lowest_scoring_cleans_only_own_token _ _ (by simp)⟩

/-- A capacity-2, threshold-0 cache holding epochs 2 and 1 — in that
iteration order, realized here by admitting epoch 2 before epoch 1 (the
`HashMap`'s iteration order is unspecified and seed-randomized, so the
epochs may come out in either order regardless of insertion order) —
with equal `evict_score = 0` (no links, an exact tie also in `f32`),
then admitting epoch 3. -/
def tieCache : PersonalityCache :=
  (((((PersonalityCache.new 2 0).update_memory
      ⟨2, 6, 100, 0, 0⟩ [] 10).1).update_memory
      ⟨1, 5, 100, 0, 0⟩ [] 11).1.update_memory
      ⟨3, 7, 100, 0, 0⟩ [] 12).1

/-- C8 (counterexample): on an `evict_score` tie the evicted entry is the
*first* equally-minimal entry in the hash map's iteration order
(`Iterator::min_by` keeps the first minimum), not the one with the
smallest epoch: with epochs iterated in the order [2, 1], admitting
epoch 3 into `tieCache` evicts epoch 2 and keeps the smaller epoch 1,
contradicting the smaller-epoch tie-break (and, the order being
seed-randomized, any determinism across runs). -/
theorem eviction_tie_not_smallest_epoch :
    alookup tieCache.entries 2 = none ∧ (alookup tieCache.entries 1).isSome = true := by
  norm_num [tieCache, PersonalityCache.new, PersonalityCache.update_memory,
    calculate_personality_score, evict_lowest_scoring, minByFirst, evictScore,
    alookup, aInsert, aRemove, sInsert, sRemove, MemoryEntry.epoch, List.find?,
    List.filter, List.filterMap, List.foldl]

/-- C8 (amended): whenever an admission triggers eviction, the entry
removed is the `min_by` choice: its `evict_score = weight × link_strength`
is minimal over all cached entries, and among equally-minimal entries the
first one in the map's iteration order is taken (no smallest-epoch
tie-break, and the choice is determined only up to the unspecified hash
iteration order); the new cache contents are the old ones with that entry
removed and the admitted entry inserted. -/
theorem update_memory_evicts_minimal_score (c : PersonalityCache)
    (e : MemoryEntry) (related_tokens : List Nat) (now : Nat)
    (hadm : c.personality_threshold ≤
      (calculate_personality_score c.entries e now).link_strength)
    (hfull : c.max_entries ≤ c.entries.length)
    (hne : c.entries ≠ []) :
    ∃ ep v s, minByFirst c.entries = some (ep, v, s) ∧
      (ep, v, s) ∈ c.entries ∧
      (∀ x ∈ c.entries, evictScore s ≤ evictScore x.2.2) ∧
      (c.update_memory e related_tokens now).1.entries =
        aInsert (aRemove c.entries ep) e.epoch
          (e, calculate_personality_score c.entries e now) := by
  obtain ⟨⟨ep, v, s⟩, hm, hmem, hall⟩ := minByFirst_spec c.entries hne
  refine ⟨ep, v, s, hm, hmem, fun x hx => hall x hx, ?_⟩
  rw [PersonalityCache.update_memory]
  simp only [if_pos hadm, if_pos hfull, evict_lowest_scoring, hm]

/-- C8 (witness for the amended theorem) on a concrete full cache. -/
theorem update_memory_evicts_minimal_score_witness :
    ((PersonalityCache.mk [(1, ⟨1, 5, 100, 0, 0⟩, ⟨100, 0, 0, 10⟩)] [] 1 0).personality_threshold ≤
      (calculate_personality_score
        [(1, ⟨1, 5, 100, 0, 0⟩, ⟨100, 0, 0, 10⟩)] ⟨2, 6, 100, 0, 0⟩ 11).link_strength) ∧
    ((PersonalityCache.mk [(1, ⟨1, 5, 100, 0, 0⟩, ⟨100, 0, 0, 10⟩)] [] 1 0).max_entries ≤
      (PersonalityCache.mk [(1, ⟨1, 5, 100, 0, 0⟩, ⟨100, 0, 0, 10⟩)] [] 1 0).entries.length) ∧
    (∃ ep v s,
      minByFirst [(1, ⟨1, 5, 100, 0, 0⟩, ⟨100, 0, 0, 10⟩)] = some (ep, v, s) ∧
      (ep, v, s) ∈ ([(1, ⟨1, 5, 100, 0, 0⟩, ⟨100, 0, 0, 10⟩)] : CacheEntries) ∧
      (∀ x ∈ ([(1, ⟨1, 5, 100, 0, 0⟩, ⟨100, 0, 0, 10⟩)] : CacheEntries),
        evictScore s ≤ evictScore x.2.2) ∧
      ((PersonalityCache.mk [(1, ⟨1, 5, 100, 0, 0⟩, ⟨100, 0, 0, 10⟩)] [] 1 0).update_memory
          ⟨2, 6, 100, 0, 0⟩ [] 11).1.entries =
        aInsert (aRemove [(1, ⟨1, 5, 100, 0, 0⟩, ⟨100, 0, 0, 10⟩)] ep)
          (MemoryEntry.epoch ⟨2, 6, 100, 0, 0⟩)
          (⟨2, 6, 100, 0, 0⟩, calculate_personality_score
            [(1, ⟨1, 5, 100, 0, 0⟩, ⟨100, 0, 0, 10⟩)] ⟨2, 6, 100, 0, 0⟩ 11)) :=
  ⟨by norm_num [calculate_personality_score, PersonalityCache.mk],
    by simp,
    update_memory_evicts_minimal_score
      (PersonalityCache.mk [(1, ⟨1, 5, 100, 0, 0⟩, ⟨100, 0, 0, 10⟩)] [] 1 0)
      ⟨2, 6, 100, 0, 0⟩ [] 11
      (by norm_num [calculate_personality_score, PersonalityCache.mk])
      (by simp) (by simp)⟩

/-- C9: after any sequence of cache operations starting from a fresh
cache, `stats()` reports `cache_hit_rate = 0`: the field is the literal
constant `0.0` in the source and no operation ever tracks hits. -/
theorem stats_cache_hit_rate_always_zero (max_entries : Nat)
    (personality_threshold : ℚ) (ops : List CacheOp) :
    (PersonalityCache.stats
      (runCacheOps (PersonalityCache.new max_entries personality_threshold) ops)).cache_hit_rate
      = 0 :=
  rfl

end MeM8

namespace MeM8

/-! ### Stage1 (src/memory/stage1.rs) -/

/-- `Stage1Config` (`decay_rate`, `similarity_threshold` are `f32`,
modelled over `ℚ`). -/
structure Stage1Config where
  max_age : Nat
  min_weight : Nat
  decay_rate : ℚ
  similarity_threshold : ℚ
deriving Repr, DecidableEq

/-- `Stage1Config::default`. -/
def Stage1Config.default : Stage1Config :=
  { max_age := 3600 * 24, min_weight := 100,
    decay_rate := 95 / 100, similarity_threshold := 7 / 10 }

/-- `Stage1` state. -/
structure Stage1 where
  entries : List (Nat × MemoryEntry)
  current_epoch : Nat
  config : Stage1Config
  last_cleanup : Nat
deriving Repr, DecidableEq

/-- Reinterpret a `u16` bit pattern as `i16` (the Rust `as i16` cast). -/
def u16AsI16 (x : Nat) : Int := if x < 32768 then (x : Int) else (x : Int) - 65536

/-- Two's-complement wrap-around of an `i16` arithmetic result
(release-mode Rust semantics; a debug build panics on `i16` overflow
instead — every input at which a claim below is settled stays inside
`i16`, where both modes agree and this is the identity). -/
def i16Wrap (x : Int) : Int := (x + 32768) % 65536 - 32768

/-- `u16::saturating_add_signed` (used by `MemoryEntry::adjust_weight`). -/
def saturatingAddSigned (w : Nat) (d : Int) : Nat :=
  (min (max ((w : Int) + d) 0) 65535).toNat

/-- The Rust `expr as u16` cast applied to an `f32` value (saturating at
the bounds, truncating toward zero), on the exact rational value; all
values reached in the claims are nonnegative and exactly representable. -/
def f32AsU16 (q : ℚ) : Nat := min (max ⌊q⌋ 0).toNat 65535

/-- The decay factor `decay_rate.powi(hours_since_cleanup)` with
`hours_since_cleanup = (now - last_cleanup) / 3600` (a `u32` subtraction
and integer division; the claims are settled under
`last_cleanup ≤ now`, where `Nat` subtraction agrees with `u32`). -/
def Stage1.decay_factor_at (s : Stage1) (now : Nat) : ℚ :=
  s.config.decay_rate ^ ((now - s.last_cleanup) / 3600)

/-- The removal test of `Stage1::maintain`:
`age_from(now) > max_age || weight < min_weight` (evaluated on the
already-decayed entry). -/
def stage1RemovalCond (s : Stage1) (now : Nat) (e : MemoryEntry) : Bool :=
  decide (s.config.max_age < e.age_from now) || decide (e.weight < s.config.min_weight)

/-- The per-entry decay step of `Stage1::maintain`:
`new_weight = (weight as f32 * decay_factor) as u16` followed by
`adjust_weight((new_weight as i16) - (weight as i16))`. -/
def stage1DecayOne (decay_factor : ℚ) (e : MemoryEntry) : MemoryEntry :=
  let new_weight := f32AsU16 ((e.weight : ℚ) * decay_factor)
  { e with weight :=
      saturatingAddSigned e.weight (i16Wrap (u16AsI16 new_weight - u16AsI16 e.weight)) }

/-- `Stage1::maintain` at clock value `now`: decays every entry in place,
removes the entries satisfying the removal test, returns them in
iteration order, and sets `last_cleanup := now`. -/
def Stage1.maintain (s : Stage1) (now : Nat) : Stage1 × List MemoryEntry :=
  let decayed := s.entries.map (fun p => (p.1, stage1DecayOne (s.decay_factor_at now) p.2))
  ({ s with
      entries := decayed.filter (fun p => !(stage1RemovalCond s now p.2)),
      last_cleanup := now },
   (decayed.filter (fun p => stage1RemovalCond s now p.2)).map Prod.snd)

/-- The decay step as C7 states it: the weight is multiplied by
`decay_rate ^ hours`, truncating to unsigned. -/
def specDecay (decay_factor : ℚ) (e : MemoryEntry) : MemoryEntry :=
  { e with weight := (⌊(e.weight : ℚ) * decay_factor⌋).toNat }

/-- A Stage 1 state holding one maximal-weight entry, with
`min_weight = 20000`, `decay_rate = 1/2`, a huge `max_age`, and
`last_cleanup = 0`. -/
def decaySatStage1 : Stage1 :=
  { entries := [(50, ⟨50, 5, 65535, 0, 0⟩)], current_epoch := 50,
    config := { max_age := 1000000000, min_weight := 20000,
                decay_rate := 1 / 2, similarity_threshold := 7 / 10 },
    last_cleanup := 0 }

/-- C7 (counterexample): at `now = 7200` (two elapsed hours, decay factor
`1/4`, all `f32` steps exact) the claim says the entry's weight becomes
`⌊65535 / 4⌋ = 16383 < 20000 = min_weight`, so it is removed and
returned.  In the code the weight update goes through
`(new_weight as i16) - (weight as i16)`: `16383 - (-1) = 16384`, and
`65535u16.saturating_add_signed(16384)` saturates back to `65535`, so the
entry keeps weight 65535, is **not** removed, and `maintain` returns
nothing. -/
theorem maintain_saturates_instead_of_decaying :
    (decaySatStage1.maintain 7200).2 = [] ∧
      alookup (decaySatStage1.maintain 7200).1.entries 50 =
        some ⟨50, 5, 65535, 0, 0⟩ ∧
      (specDecay (decaySatStage1.decay_factor_at 7200) ⟨50, 5, 65535, 0, 0⟩).weight
        = 16383 ∧
      16383 < decaySatStage1.config.min_weight := by
  have hf : decaySatStage1.decay_factor_at 7200 = (4 : ℚ)⁻¹ := by
    rw [Stage1.decay_factor_at]
    norm_num [decaySatStage1]
  have hd : stage1DecayOne ((4 : ℚ)⁻¹) ⟨50, 5, 65535, 0, 0⟩ = ⟨50, 5, 65535, 0, 0⟩ := by
    rw [stage1DecayOne]
    norm_num [f32AsU16, u16AsI16, i16Wrap, saturatingAddSigned]
    rfl
  have hc : stage1RemovalCond decaySatStage1 7200 ⟨50, 5, 65535, 0, 0⟩ = false := by
    norm_num [stage1RemovalCond, decaySatStage1, MemoryEntry.age_from]
  have hent : decaySatStage1.entries = [(50, ⟨50, 5, 65535, 0, 0⟩)] := rfl
  have hm : decaySatStage1.maintain 7200 =
      ({ decaySatStage1 with
          entries := [(50, ⟨50, 5, 65535, 0, 0⟩)], last_cleanup := 7200 }, []) := by
    rw [Stage1.maintain, hf, hent]
    simp only [List.map_cons, List.map_nil, hd, List.filter_cons, List.filter_nil, hc,
      Bool.not_false, if_pos, if_neg, Bool.false_eq_true, not_false_eq_true, ite_true,
      ite_false, List.map_nil]
  refine ⟨?_, ?_, ?_, by norm_num [decaySatStage1]⟩
  · rw [hm]
  · rw [hm]
    simp [alookup, List.find?]
  · rw [specDecay, hf]
    norm_num
    rfl
/-- For an in-design-range weight (`≤ 32767 = i16::MAX`, so both `as i16`
casts are value-preserving and the delta fits `i16`), the code's decay
step agrees with the specified multiplication by the decay factor. -/
theorem stage1DecayOne_eq_specDecay (f : ℚ) (hf0 : 0 ≤ f) (hf1 : f ≤ 1)
    (e : MemoryEntry) (hw : e.weight ≤ 32767) :
    stage1DecayOne f e = specDecay f e := by
  have hq0 : (0 : ℚ) ≤ (e.weight : ℚ) * f := mul_nonneg (by positivity) hf0
  have hqw : (e.weight : ℚ) * f ≤ (e.weight : ℚ) :=
    mul_le_of_le_one_right (by positivity) hf1
  have hfl0 : 0 ≤ ⌊(e.weight : ℚ) * f⌋ := Int.floor_nonneg.mpr hq0
  have hflw : ⌊(e.weight : ℚ) * f⌋ ≤ (e.weight : Int) := by
    calc ⌊(e.weight : ℚ) * f⌋ ≤ ⌊((e.weight : Nat) : ℚ)⌋ := Int.floor_le_floor hqw
    _ = (e.weight : Int) := Int.floor_natCast e.weight
  have hwI : (e.weight : Int) ≤ 32767 := by exact_mod_cast hw
  have h1 : f32AsU16 ((e.weight : ℚ) * f) = (⌊(e.weight : ℚ) * f⌋).toNat := by
    rw [f32AsU16, max_eq_left hfl0, min_eq_left]
    omega
  have htn : ((⌊(e.weight : ℚ) * f⌋).toNat : Int) = ⌊(e.weight : ℚ) * f⌋ :=
    Int.toNat_of_nonneg hfl0
  have h2 : u16AsI16 ((⌊(e.weight : ℚ) * f⌋).toNat) = ⌊(e.weight : ℚ) * f⌋ := by
    rw [u16AsI16, if_pos (by omega)]
    exact htn
  have h3 : u16AsI16 e.weight = (e.weight : Int) := by
    rw [u16AsI16, if_pos (by omega)]
  have h4 : i16Wrap (⌊(e.weight : ℚ) * f⌋ - (e.weight : Int)) =
      ⌊(e.weight : ℚ) * f⌋ - (e.weight : Int) := by
    rw [i16Wrap, Int.emod_eq_of_lt (by omega) (by omega)]
    omega
  rw [stage1DecayOne, specDecay, h1, h2, h3, h4, saturatingAddSigned]
  have : (e.weight : Int) + (⌊(e.weight : ℚ) * f⌋ - (e.weight : Int)) =
      ⌊(e.weight : ℚ) * f⌋ := by omega
  rw [this, max_eq_left hfl0, min_eq_left (by omega)]

/-- C7 (amended): `maintain` behaves as the claim states it on every
state whose weights lie in the signed-design range `≤ 32767` (the
counterexample shows larger weights are mangled by the `i16` delta cast):
every entry's weight becomes `⌊weight · decay_rate ^ hours⌋`, exactly the
entries whose (decayed) state satisfies the removal test leave `entries`
and are returned, in iteration order, `last_cleanup` becomes `now`, and
each removed entry is returned exactly once and is no longer reachable by
its key. -/
theorem maintain_matches_spec_for_i16_weights (s : Stage1) (now : Nat)
    (hr0 : 0 ≤ s.config.decay_rate) (hr1 : s.config.decay_rate ≤ 1)
    (hlc : s.last_cleanup ≤ now)
    (hw : ∀ p ∈ s.entries, p.2.weight ≤ 32767)
    (hk : ∀ p ∈ s.entries, p.1 = p.2.epoch_pointer)
    (hnd : (s.entries.map Prod.fst).Nodup) :
    (s.maintain now).1.entries =
      (s.entries.map (fun p => (p.1, specDecay (s.decay_factor_at now) p.2))).filter
        (fun p => !(stage1RemovalCond s now p.2)) ∧
    (s.maintain now).2 =
      ((s.entries.map (fun p => (p.1, specDecay (s.decay_factor_at now) p.2))).filter
        (fun p => stage1RemovalCond s now p.2)).map Prod.snd ∧
    (s.maintain now).1.last_cleanup = now ∧
    ∀ p ∈ s.entries,
      stage1RemovalCond s now (specDecay (s.decay_factor_at now) p.2) = true →
      (s.maintain now).2.count (specDecay (s.decay_factor_at now) p.2) = 1 ∧
      alookup (s.maintain now).1.entries p.1 = none := by
  have hf0 : 0 ≤ s.decay_factor_at now := pow_nonneg hr0 _
  have hf1 : s.decay_factor_at now ≤ 1 := pow_le_one₀ hr0 hr1
  have hmap : s.entries.map
        (fun p => (p.1, stage1DecayOne (s.decay_factor_at now) p.2)) =
      s.entries.map (fun p => (p.1, specDecay (s.decay_factor_at now) p.2)) :=
    List.map_congr_left (fun p hp => by
      rw [stage1DecayOne_eq_specDecay _ hf0 hf1 _ (hw p hp)])
  have hent : (s.maintain now).1.entries =
      (s.entries.map (fun p => (p.1, specDecay (s.decay_factor_at now) p.2))).filter
        (fun p => !(stage1RemovalCond s now p.2)) := by
    simp only [Stage1.maintain]
    rw [hmap]
  have hret : (s.maintain now).2 =
      ((s.entries.map (fun p => (p.1, specDecay (s.decay_factor_at now) p.2))).filter
        (fun p => stage1RemovalCond s now p.2)).map Prod.snd := by
    simp only [Stage1.maintain]
    rw [hmap]
  refine ⟨hent, hret, rfl, ?_⟩
  intro p hp hcond
  have hgmem : (p.1, specDecay (s.decay_factor_at now) p.2) ∈
      s.entries.map (fun p => (p.1, specDecay (s.decay_factor_at now) p.2)) :=
    List.mem_map_of_mem _ hp
  have hfmem : (p.1, specDecay (s.decay_factor_at now) p.2) ∈
      (s.entries.map (fun p => (p.1, specDecay (s.decay_factor_at now) p.2))).filter
        (fun p => stage1RemovalCond s now p.2) :=
    List.mem_filter.mpr ⟨hgmem, hcond⟩
  have hLfst : (s.entries.map
        (fun p => (p.1, specDecay (s.decay_factor_at now) p.2))).map Prod.fst =
      s.entries.map Prod.fst := by
    rw [List.map_map]
    rfl
  constructor
  · -- the removed entry occurs exactly once in the returned sequence
    rw [hret]
    have hepoch : ∀ q ∈ (s.entries.map
          (fun p => (p.1, specDecay (s.decay_factor_at now) p.2))).filter
          (fun p => stage1RemovalCond s now p.2),
        q.2.epoch_pointer = q.1 := by
      intro q hq
      obtain ⟨hqL, -⟩ := List.mem_filter.mp hq
      obtain ⟨p', hp', rfl⟩ := List.mem_map.mp hqL
      simpa [specDecay] using (hk p' hp').symm
    have hmapped : (((s.entries.map
          (fun p => (p.1, specDecay (s.decay_factor_at now) p.2))).filter
          (fun p => stage1RemovalCond s now p.2)).map Prod.snd).map
          MemoryEntry.epoch_pointer =
        ((s.entries.map
          (fun p => (p.1, specDecay (s.decay_factor_at now) p.2))).filter
          (fun p => stage1RemovalCond s now p.2)).map Prod.fst := by
      rw [List.map_map]
      exact List.map_congr_left hepoch
    have hndf : (((s.entries.map
          (fun p => (p.1, specDecay (s.decay_factor_at now) p.2))).filter
          (fun p => stage1RemovalCond s now p.2)).map Prod.fst).Nodup :=
      List.Nodup.sublist
        ((List.filter_sublist _).map Prod.fst) (hLfst ▸ hnd)
    have hndret : (((s.entries.map
          (fun p => (p.1, specDecay (s.decay_factor_at now) p.2))).filter
          (fun p => stage1RemovalCond s now p.2)).map Prod.snd).Nodup :=
      List.Nodup.of_map MemoryEntry.epoch_pointer (hmapped ▸ hndf)
    exact List.count_eq_one_of_mem hndret
      (List.mem_map_of_mem Prod.snd hfmem)
  · -- the removed entry's key no longer resolves
    rw [hent, alookup]
    have hnone : List.find? (fun q => decide (q.1 = p.1))
        ((s.entries.map (fun p => (p.1, specDecay (s.decay_factor_at now) p.2))).filter
          (fun p => !(stage1RemovalCond s now p.2))) = none := by
      apply List.find?_eq_none.mpr
      intro q hq
      obtain ⟨hqL, hqc⟩ := List.mem_filter.mp hq
      obtain ⟨p', hp', rfl⟩ := List.mem_map.mp hqL
      simp only [decide_eq_true_eq]
      intro heq
      have hpp : p' = p := List.inj_on_of_nodup_map hnd hp' hp heq
      subst hpp
      rw [hcond] at hqc
      simp at hqc
    rw [hnone]
    rfl

/-- A Stage 1 state with one entry of weight 200 inside the `i16` range,
`min_weight = 100` and `decay_rate = 1/2`. -/
def decayWitnessStage1 : Stage1 :=
  { entries := [(100, ⟨100, 5, 200, 0, 0⟩)], current_epoch := 100,
    config := { max_age := 1000000000, min_weight := 100,
                decay_rate := 1 / 2, similarity_threshold := 7 / 10 },
    last_cleanup := 0 }

/-- C7 (witness for the amended theorem): after two elapsed hours the
entry decays to `⌊200 / 4⌋ = 50 < 100` and is removed and returned. -/
theorem maintain_matches_spec_for_i16_weights_witness :
    (0 ≤ decayWitnessStage1.config.decay_rate) ∧
    (decayWitnessStage1.config.decay_rate ≤ 1) ∧
    (decayWitnessStage1.last_cleanup ≤ 7200) ∧
    (∀ p ∈ decayWitnessStage1.entries, p.2.weight ≤ 32767) ∧
    (∀ p ∈ decayWitnessStage1.entries, p.1 = p.2.epoch_pointer) ∧
    ((decayWitnessStage1.entries.map Prod.fst).Nodup) ∧
    ((decayWitnessStage1.maintain 7200).1.entries =
      (decayWitnessStage1.entries.map
        (fun p => (p.1, specDecay (decayWitnessStage1.decay_factor_at 7200) p.2))).filter
        (fun p => !(stage1RemovalCond decayWitnessStage1 7200 p.2)) ∧
    (decayWitnessStage1.maintain 7200).2 =
      ((decayWitnessStage1.entries.map
        (fun p => (p.1, specDecay (decayWitnessStage1.decay_factor_at 7200) p.2))).filter
        (fun p => stage1RemovalCond decayWitnessStage1 7200 p.2)).map Prod.snd ∧
    (decayWitnessStage1.maintain 7200).1.last_cleanup = 7200 ∧
    ∀ p ∈ decayWitnessStage1.entries,
      stage1RemovalCond decayWitnessStage1 7200
        (specDecay (decayWitnessStage1.decay_factor_at 7200) p.2) = true →
      (decayWitnessStage1.maintain 7200).2.count
        (specDecay (decayWitnessStage1.decay_factor_at 7200) p.2) = 1 ∧
      alookup (decayWitnessStage1.maintain 7200).1.entries p.1 = none) :=
  ⟨by norm_num [decayWitnessStage1], by norm_num [decayWitnessStage1],
    by norm_num [decayWitnessStage1], by simp [decayWitnessStage1],
    by simp [decayWitnessStage1], by simp [decayWitnessStage1],
    maintain_matches_spec_for_i16_weights decayWitnessStage1 7200
      (by norm_num [decayWitnessStage1]) (by norm_num [decayWitnessStage1])
      (by norm_num [decayWitnessStage1]) (by simp [decayWitnessStage1])
      (by simp [decayWitnessStage1]) (by simp [decayWitnessStage1])⟩

/-! ### Byte-level serialization (bincode 1.x fixint little-endian)

Bytes are `Nat`s below 256; every serializer only emits values below 256
and parsers recombine little-endian as bincode does.  `bincode::deserialize`
(the plain function, as called by the source) allows trailing bytes, so
every parser returns the unconsumed rest. -/

/-- Little-endian `u16`. -/
def u16le (n : Nat) : List Nat := [n % 256, n / 256 % 256]

/-- Little-endian `u32`. -/
def u32le (n : Nat) : List Nat :=
  [n % 256, n / 256 % 256, n / 65536 % 256, n / 16777216 % 256]

/-- Little-endian `u64`. -/
def u64le (n : Nat) : List Nat :=
  [n % 256, n / 256 % 256, n / 65536 % 256, n / 16777216 % 256,
   n / 4294967296 % 256, n / 1099511627776 % 256,
   n / 281474976710656 % 256, n / 72057594037927936 % 256]

/-- Parse a little-endian `u16`. -/
def parseU16 : List Nat → Option (Nat × List Nat)
  | b0 :: b1 :: rest => some (b0 + 256 * b1, rest)
  | _ => none

/-- Parse a little-endian `u32`. -/
def parseU32 : List Nat → Option (Nat × List Nat)
  | b0 :: b1 :: b2 :: b3 :: rest =>
    some (b0 + 256 * b1 + 65536 * b2 + 16777216 * b3, rest)
  | _ => none

/-- Parse a little-endian `u64`. -/
def parseU64 : List Nat → Option (Nat × List Nat)
  | b0 :: b1 :: b2 :: b3 :: b4 :: b5 :: b6 :: b7 :: rest =>
    some (b0 + 256 * b1 + 65536 * b2 + 16777216 * b3 + 4294967296 * b4 +
      1099511627776 * b5 + 281474976710656 * b6 + 72057594037927936 * b7, rest)
  | _ => none

/-- Read exactly `n` bytes. -/
def readBytes (n : Nat) (bs : List Nat) : Option (List Nat × List Nat) :=
  if n ≤ bs.length then some (bs.take n, bs.drop n) else none

theorem parseU16_u16le (n : Nat) (rest : List Nat) :
    parseU16 (u16le n ++ rest) = some (n % 65536, rest) := by
  simp only [u16le, List.cons_append, List.nil_append, parseU16]
  exact congrArg (fun v => some (v, rest)) (by omega)

theorem parseU32_u32le (n : Nat) (rest : List Nat) :
    parseU32 (u32le n ++ rest) = some (n % 4294967296, rest) := by
  simp only [u32le, List.cons_append, List.nil_append, parseU32]
  exact congrArg (fun v => some (v, rest)) (by omega)

theorem parseU64_u64le (n : Nat) (rest : List Nat) :
    parseU64 (u64le n ++ rest) = some (n % 18446744073709551616, rest) := by
  simp only [u64le, List.cons_append, List.nil_append, parseU64]
  exact congrArg (fun v => some (v, rest)) (by omega)

theorem readBytes_append (bs rest : List Nat) :
    readBytes bs.length (bs ++ rest) = some (bs, rest) := by
  rw [readBytes, if_pos (by simp)]
  rw [List.take_left, List.drop_left]

/-! ### CRC-32 (crc32fast::hash, the IEEE polynomial, reflected) -/

/-- One bit step of the reflected CRC-32: shift right, conditionally
xoring the reversed polynomial `0xEDB88320`. -/
def crcStep (crc : Nat) : Nat :=
  if crc % 2 = 1 then Nat.xor (crc / 2) 0xEDB88320 else crc / 2

/-- Fold one byte into the CRC state (eight bit steps). -/
def crcByte (crc b : Nat) : Nat := Nat.iterate crcStep 8 (Nat.xor crc (b % 256))

/-- `crc32fast::hash`: initial value `0xFFFFFFFF`, final xor
`0xFFFFFFFF`. -/
def crc32 (data : List Nat) : Nat :=
  Nat.xor (data.foldl crcByte 0xFFFFFFFF) 0xFFFFFFFF

theorem crcStep_lt (c : Nat) (h : c < 4294967296) : crcStep c < 4294967296 := by
  rw [crcStep]
  split
  · exact Nat.xor_lt_two_pow (n := 32) (by omega) (by norm_num)
  · omega

theorem crcIter_lt (n c : Nat) (h : c < 4294967296) :
    Nat.iterate crcStep n c < 4294967296 := by
  induction n generalizing c with
  | zero => exact h
  | succ n ih => exact ih _ (crcStep_lt c h)

theorem crcByte_lt (c b : Nat) (h : c < 4294967296) : crcByte c b < 4294967296 := by
  rw [crcByte]
  exact crcIter_lt 8 _ (Nat.xor_lt_two_pow (n := 32) h (by omega))

theorem crc32_lt (data : List Nat) : crc32 data < 4294967296 := by
  rw [crc32]
  refine Nat.xor_lt_two_pow (n := 32) ?_ (by norm_num)
  have : ∀ (l : List Nat) (c : Nat), c < 4294967296 →
      l.foldl crcByte c < 4294967296 := by
    intro l
    induction l with
    | nil => exact fun c h => h
    | cons b l ih => exact fun c h => ih _ (crcByte_lt c b h)
  exact this data 0xFFFFFFFF (by norm_num)

/-! ### MemoryEntry wire format -/

/-- Canonical bincode serialization of `MemoryEntry`:
`(epoch: u32, token: u16, weight: u16, link1: u32, link2: u32)`, each
little-endian. -/
def serializeEntry (e : MemoryEntry) : List Nat :=
  u32le e.epoch_pointer ++ u16le e.token ++ u16le e.weight ++
    u32le e.link1 ++ u32le e.link2

/-- Parse a `MemoryEntry`. -/
def parseEntry (bs : List Nat) : Option (MemoryEntry × List Nat) := do
  let (epoch, r1) ← parseU32 bs
  let (token, r2) ← parseU16 r1
  let (weight, r3) ← parseU16 r2
  let (link1, r4) ← parseU32 r3
  let (link2, r5) ← parseU32 r4
  some (⟨epoch, token, weight, link1, link2⟩, r5)

/-- The `u32`/`u16` field bounds every real `MemoryEntry` satisfies. -/
def entryInRange (e : MemoryEntry) : Prop :=
  e.epoch_pointer < 4294967296 ∧ e.token < 65536 ∧ e.weight < 65536 ∧
    e.link1 < 4294967296 ∧ e.link2 < 4294967296

instance (e : MemoryEntry) : Decidable (entryInRange e) := by
  rw [entryInRange]; infer_instance

theorem parseEntry_serializeEntry (e : MemoryEntry) (h : entryInRange e)
    (rest : List Nat) :
    parseEntry (serializeEntry e ++ rest) = some (e, rest) := by
  obtain ⟨h1, h2, h3, h4, h5⟩ := h
  rw [serializeEntry, parseEntry]
  rw [List.append_assoc, List.append_assoc, List.append_assoc, List.append_assoc]
  rw [parseU32_u32le, Nat.mod_eq_of_lt h1]
  simp only [Option.bind_eq_bind, Option.some_bind]
  rw [parseU16_u16le, Nat.mod_eq_of_lt h2]
  simp only [Option.some_bind]
  rw [parseU16_u16le, Nat.mod_eq_of_lt h3]
  simp only [Option.some_bind]
  rw [parseU32_u32le, Nat.mod_eq_of_lt h4]
  simp only [Option.some_bind]
  rw [parseU32_u32le, Nat.mod_eq_of_lt h5]
  rfl

/-! ### Stage2 (src/memory/stage2.rs) -/

/-- `MemoryBlock { entry, checksum: u32, compressed: bool }`. -/
structure MemoryBlock where
  entry : MemoryEntry
  checksum : Nat
  compressed : Bool
deriving Repr, DecidableEq

/-- `MemoryBlock::new`: checksum is the CRC-32 of the serialized entry. -/
def MemoryBlock.new (e : MemoryEntry) : MemoryBlock :=
  { entry := e, checksum := crc32 (serializeEntry e), compressed := false }

/-- bincode serialization of a `MemoryBlock` (a `bool` is one byte). -/
def serializeBlock (b : MemoryBlock) : List Nat :=
  serializeEntry b.entry ++ u32le b.checksum ++ [if b.compressed then 1 else 0]

/-- Parse a `bool` byte (bincode rejects anything but 0 and 1). -/
def parseBool : List Nat → Option (Bool × List Nat)
  | 0 :: rest => some (false, rest)
  | 1 :: rest => some (true, rest)
  | _ => none

/-- Parse a `MemoryBlock` (trailing bytes allowed, as with
`bincode::deserialize`). -/
def parseBlock (bs : List Nat) : Option (MemoryBlock × List Nat) := do
  let (e, r1) ← parseEntry bs
  let (checksum, r2) ← parseU32 r1
  let (compressed, r3) ← parseBool r2
  some (⟨e, checksum, compressed⟩, r3)

theorem parseBlock_serializeBlock (b : MemoryBlock) (he : entryInRange b.entry)
    (hc : b.checksum < 4294967296) (rest : List Nat) :
    parseBlock (serializeBlock b ++ rest) = some (b, rest) := by
  rw [serializeBlock, parseBlock]
  rw [List.append_assoc, List.append_assoc]
  rw [parseEntry_serializeEntry b.entry he]
  simp only [Option.bind_eq_bind, Option.some_bind]
  rw [parseU32_u32le, Nat.mod_eq_of_lt hc]
  simp only [Option.some_bind]
  cases hcomp : b.compressed <;>
    simp [parseBool, hcomp] <;>
    exact (MemoryBlock.mk.injEq _ _ _ _ _ _).mpr ⟨rfl, rfl, hcomp.symm⟩

/-- `Stage2Config` (the `storage_path` is the single directory all file
names below live in and is left implicit). -/
structure Stage2Config where
  entries_per_file : Nat
  compression_age : Nat
deriving Repr, DecidableEq

/-- `Stage2` state.  A file name `mem_{t}.bin` is modelled by its
timestamp `t`; `files` is the directory contents; `current_file` holds
the name captured when the handle was opened (the open handle keeps
writing to that file even after the wall clock moves on). -/
structure Stage2 where
  config : Stage2Config
  index : List (Nat × Nat × Nat)
  files : List (Nat × List Nat)
  current_file : Option Nat
  current_file_entries : Nat
deriving Repr, DecidableEq

/-- `Stage2::rotate_file` at clock `now`: opens
`storage_path/mem_{now}.bin` with `create | write | append` (an existing
file keeps its contents and is appended to), resets the entry counter. -/
def Stage2.rotate_file (s : Stage2) (now : Nat) : Stage2 :=
  let files' := if (alookup s.files now).isSome then s.files else s.files ++ [(now, [])]
  { s with files := files', current_file := some now, current_file_entries := 0 }

/-- `Stage2Error`. -/
inductive Stage2Error where
  | Io
  | Serialization
  | NotFound (epoch : Nat)
  | ChecksumMismatch (epoch : Nat)
deriving Repr, DecidableEq

/-- `Stage2::store_entry` at clock `now`: rotates if no file is current
or the per-file cap is reached, appends the serialized block at
end-of-file of the **handle's** file, but records in the index the path
`current_file_path()` — recomputed from the clock (`mem_{now}.bin`), not
the handle's name. -/
def Stage2.store_entry (s : Stage2) (e : MemoryEntry) (now : Nat) : Stage2 :=
  let s := if s.current_file.isNone || s.config.entries_per_file ≤ s.current_file_entries
    then s.rotate_file now else s
  match s.current_file with
  | none => s
  | some handle =>
    let content := (alookup s.files handle).getD []
    let encoded := serializeBlock (MemoryBlock.new e)
    { s with
        files := aInsert s.files handle (content ++ encoded),
        index := aInsert s.index e.epoch_pointer (now, content.length),
        current_file_entries := s.current_file_entries + 1 }

/-- `Stage2::get_entry`: index lookup, open the recorded file (an absent
file is an `Io` error), seek to the offset, `read_to_end`, deserialize
one block (trailing bytes allowed), verify the checksum. -/
def Stage2.get_entry (s : Stage2) (epoch : Nat) : Except Stage2Error MemoryEntry :=
  match alookup s.index epoch with
  | none => .error (.NotFound epoch)
  | some (path, pos) =>
    match alookup s.files path with
    | none => .error .Io
    | some content =>
      match parseBlock (content.drop pos) with
      | none => .error .Serialization
      | some (block, _) =>
        if block.checksum = crc32 (serializeEntry block.entry) then .ok block.entry
        else .error (.ChecksumMismatch epoch)

/-- One file's contribution to `load_index`.  The loop in the source
calls `read_to_end` with a cursor at offset 0, which reads the **whole**
file into `buffer` in the first iteration: an empty file breaks
immediately; otherwise `deserialize` parses at most the first block
(bincode ignores trailing bytes) and inserts it at `pos = 0`; the cursor
is then at end-of-file, so the second `read_to_end` returns `Ok(0)` and
the loop exits.  A parse failure contributes nothing for this file. -/
def loadIndexFile (index : List (Nat × Nat × Nat)) (path : Nat)
    (content : List Nat) : List (Nat × Nat × Nat) :=
  if content.length = 0 then index
  else
    match parseBlock content with
    | some (block, _) => aInsert index block.entry.epoch_pointer (path, 0)
    | none => index

/-- `Stage2::load_index` over the directory listing (every name in the
model carries the journal extension). -/
def Stage2.load_index (files : List (Nat × List Nat)) : List (Nat × Nat × Nat) :=
  files.foldl (fun idx pf => loadIndexFile idx pf.1 pf.2) []

/-- `Stage2::new`: creates the directory and rebuilds the index from the
files on disk. -/
def Stage2.new (config : Stage2Config) (files : List (Nat × List Nat)) : Stage2 :=
  { config := config, index := Stage2.load_index files, files := files,
    current_file := none, current_file_entries := 0 }

set_option maxRecDepth 10000

/-- Auxiliary: reading back an epoch whose index entry points at the file
that was just appended to (at the offset where the block begins) yields
the stored entry. -/
theorem get_entry_after_write (cfg : Stage2Config) (idx : List (Nat × Nat × Nat))
    (files : List (Nat × List Nat)) (cf : Option Nat) (cnt : Nat)
    (e : MemoryEntry) (now : Nat) (content : List Nat) (hr : entryInRange e) :
    Stage2.get_entry
      ⟨cfg, aInsert idx e.epoch_pointer (now, content.length),
        aInsert files now (content ++ serializeBlock (MemoryBlock.new e)), cf, cnt⟩
      e.epoch_pointer = .ok e := by
  rw [Stage2.get_entry]
  simp only [alookup_aInsert_self]
  rw [List.drop_left]
  have hp : parseBlock (serializeBlock (MemoryBlock.new e)) =
      some (MemoryBlock.new e, []) := by
    rw [← List.append_nil (serializeBlock (MemoryBlock.new e))]
    exact parseBlock_serializeBlock (MemoryBlock.new e) hr
      (show crc32 (serializeEntry e) < 4294967296 from crc32_lt _) []
  rw [hp]
  simp [MemoryBlock.new]

/-- The Stage 2 state after storing epoch 100 at wall-clock second 1000
and then epoch 200 at second 1001 into an initially empty directory
(capacity 10 entries per file, so the second store does not rotate). -/
def stage2TwoStores : Stage2 :=
  ((Stage2.new ⟨10, 0⟩ []).store_entry ⟨100, 1, 10, 0, 0⟩ 1000).store_entry
    ⟨200, 2, 20, 0, 0⟩ 1001

/-- C2 (counterexample): read-your-writes fails when the wall clock ticks
between two stores into the same journal file.  The second store appends
epoch 200's block to the open handle's file `mem_1000.bin` (at offset 21)
but records `(mem_1001.bin, 21)` in the index — `current_file_path()` is
recomputed from the clock — and no file of that name exists, so
`get_entry(200)` returns an `Io` error instead of the entry. -/
theorem store_then_get_fails_after_clock_tick :
    stage2TwoStores.get_entry 200 = .error .Io ∧
      alookup stage2TwoStores.index 200 = some (1001, 21) ∧
      alookup stage2TwoStores.files 1001 = none :=
  ⟨rfl, rfl, rfl⟩

/-- C2 (amended): `store_entry(e)` followed by `get_entry(e.epoch())`
returns `Ok(e)` provided the wall-clock second `now` of the store names
the handle's file: either this store rotates (no current file, or the
per-file cap is reached — the freshly opened handle is `mem_{now}.bin`),
or the current handle was opened when the clock read `now`.  Without that
proviso the index records a path that was never written (see the
counterexample). -/
theorem store_entry_read_your_writes (s : Stage2) (e : MemoryEntry) (now : Nat)
    (hr : entryInRange e)
    (hcase : s.current_file = none ∨
      s.config.entries_per_file ≤ s.current_file_entries ∨
      s.current_file = some now) :
    (s.store_entry e now).get_entry e.epoch_pointer = .ok e := by
  simp only [Stage2.store_entry]
  by_cases hrot : (s.current_file.isNone ||
      decide (s.config.entries_per_file ≤ s.current_file_entries)) = true
  · rw [if_pos hrot]
    simp only [Stage2.rotate_file]
    exact get_entry_after_write _ _ _ _ _ e now _ hr
  · rw [if_neg hrot]
    have hcf : s.current_file = some now := by
      rcases hcase with h | h | h
      · exfalso; apply hrot; rw [h]; rfl
      · exfalso; apply hrot
        exact (Bool.or_eq_true _ _).mpr (Or.inr (decide_eq_true h))
      · exact h
    rw [hcf]
    exact get_entry_after_write _ _ _ _ _ e now _ hr

/-- C2 (witness for the amended theorem): a store at second 1000 into a
fresh Stage 2 (rotation case) reads back. -/
theorem store_entry_read_your_writes_witness :
    entryInRange ⟨100, 1, 10, 0, 0⟩ ∧
      ((Stage2.new ⟨10, 0⟩ []).current_file = none ∨
        (Stage2.new ⟨10, 0⟩ []).config.entries_per_file ≤
          (Stage2.new ⟨10, 0⟩ []).current_file_entries ∨
        (Stage2.new ⟨10, 0⟩ []).current_file = some 1000) ∧
      ((Stage2.new ⟨10, 0⟩ []).store_entry ⟨100, 1, 10, 0, 0⟩ 1000).get_entry 100 =
        .ok ⟨100, 1, 10, 0, 0⟩ :=
  ⟨by decide, Or.inl rfl,
    store_entry_read_your_writes (Stage2.new ⟨10, 0⟩ []) ⟨100, 1, 10, 0, 0⟩ 1000
      (by decide) (Or.inl rfl)⟩

/-- The two-block journal file used for the C6 failing input: the
serialized blocks of epochs 10 and 20, concatenated (the second block
begins at byte offset 21). -/
def twoBlockJournal : List Nat :=
  serializeBlock (MemoryBlock.new ⟨10, 1, 11, 0, 0⟩) ++
    serializeBlock (MemoryBlock.new ⟨20, 2, 22, 0, 0⟩)

/-- C6 (the code at the failing input): `load_index` over a directory
holding one journal file with two well-formed blocks yields an index with
**only** the first block's epoch at offset 0.  The first `read_to_end`
consumes the whole file, `deserialize` parses only the first block, and
the loop then sees `Ok(0)` and stops — the remaining blocks of every file
are never indexed, so reopening Stage 2 loses them (epoch 20 here is
`NotFound` even though its block is on disk at offset 21). -/
theorem load_index_indexes_only_first_block :
    Stage2.load_index [(5, twoBlockJournal)] = [(10, 5, 0)] ∧
      (Stage2.new ⟨10, 0⟩ [(5, twoBlockJournal)]).get_entry 20 =
        .error (.NotFound 20) ∧
      parseBlock (twoBlockJournal.drop 21) =
        some (MemoryBlock.new ⟨20, 2, 22, 0, 0⟩, []) := by
  refine ⟨by decide, rfl, ?_⟩
  have : twoBlockJournal.drop 21 = serializeBlock (MemoryBlock.new ⟨20, 2, 22, 0, 0⟩) := by
    decide
  rw [this, ← List.append_nil (serializeBlock (MemoryBlock.new ⟨20, 2, 22, 0, 0⟩))]
  exact parseBlock_serializeBlock _ (by decide) (crc32_lt _) []

/-! ### Compression (src/memory/compression.rs) -/

/-- `CompressionAlgorithm`. -/
inductive CompressionAlgorithm where
  | None
  | LZ4
deriving Repr, DecidableEq

/-- `CompressionMetrics`; `compression_time : Duration` is kept as
`(secs, nanos)` exactly as bincode serializes it. -/
structure CompressionMetrics where
  original_size : Nat
  compressed_size : Nat
  compression_time_secs : Nat
  compression_time_nanos : Nat
  algorithm : CompressionAlgorithm
deriving Repr, DecidableEq

/-- Modelled from the spec: `lz4_flex::compress_prepend_size` is an
external crate, and the spec places "the choice of any specific
compression codec beyond the abstract identity or LZ4-like framed codec"
out of scope, contracting only "a framed block codec … with a
size-prefixed frame so that `decompress` needs no external length hint".
The frame is modelled as the little-endian `u32` payload length followed
by the stored payload. -/
def compress_prepend_size (data : List Nat) : List Nat :=
  u32le data.length ++ data

/-- Modelled from the spec: `lz4_flex::decompress_size_prepended`, the
inverse of the frame; a malformed frame is a `CodecError`. -/
def decompress_size_prepended (data : List Nat) : Except String (List Nat) :=
  match parseU32 data with
  | some (n, rest) =>
    if rest.length = n then .ok rest else .error "LZ4 decompression error"
  | none => .error "LZ4 decompression error"

/-- `Compressor`. -/
structure Compressor where
  algorithm : CompressionAlgorithm
deriving Repr, DecidableEq

/-- `Compressor::compress`.  The elapsed `Instant` time recorded in the
metrics is wall-clock noise; it is modelled as 0 (no claim depends on
it). -/
def Compressor.compress (c : Compressor) (data : List Nat) :
    List Nat × CompressionMetrics :=
  let (compressed_data, compressed_size) :=
    match c.algorithm with
    | .None => (data, data.length)
    | .LZ4 => (compress_prepend_size data, (compress_prepend_size data).length)
  (compressed_data,
    { original_size := data.length, compressed_size := compressed_size,
      compression_time_secs := 0, compression_time_nanos := 0,
      algorithm := c.algorithm })

/-- `Compressor::decompress`. -/
def Compressor.decompress (c : Compressor) (data : List Nat) :
    Except String (List Nat) :=
  match c.algorithm with
  | .None => .ok data
  | .LZ4 => decompress_size_prepended data

/-! ### Stage3 (src/memory/stage3.rs) -/

/-- bincode's variant tag for `CompressionAlgorithm` (a `u32`). -/
def algTag : CompressionAlgorithm → Nat
  | .None => 0
  | .LZ4 => 1

/-- bincode serialization of `CompressionMetrics`: two `usize`s (as
`u64`), a `Duration` (`u64` secs + `u32` nanos), and the enum tag. -/
def serializeMetrics (m : CompressionMetrics) : List Nat :=
  u64le m.original_size ++ u64le m.compressed_size ++
    u64le m.compression_time_secs ++ u32le m.compression_time_nanos ++
    u32le (algTag m.algorithm)

/-- Parse a `CompressionAlgorithm` tag (bincode rejects unknown
variants). -/
def parseAlgorithm (bs : List Nat) : Option (CompressionAlgorithm × List Nat) :=
  match parseU32 bs with
  | some (0, rest) => some (.None, rest)
  | some (1, rest) => some (.LZ4, rest)
  | _ => none

/-- Parse `CompressionMetrics`.  (serde deserializes a `Duration` from
`(secs, nanos)`; normalization of `nanos ≥ 10^9` never occurs on the
canonical encodings handled here.) -/
def parseMetrics (bs : List Nat) : Option (CompressionMetrics × List Nat) := do
  let (osz, r1) ← parseU64 bs
  let (csz, r2) ← parseU64 r1
  let (secs, r3) ← parseU64 r2
  let (nanos, r4) ← parseU32 r3
  let (alg, r5) ← parseAlgorithm r4
  some (⟨osz, csz, secs, nanos, alg⟩, r5)

/-- Field bounds of an encodable `CompressionMetrics`. -/
def metricsInRange (m : CompressionMetrics) : Prop :=
  m.original_size < 18446744073709551616 ∧
    m.compressed_size < 18446744073709551616 ∧
    m.compression_time_secs < 18446744073709551616 ∧
    m.compression_time_nanos < 4294967296

theorem parseAlgorithm_tag (a : CompressionAlgorithm) (rest : List Nat) :
    parseAlgorithm (u32le (algTag a) ++ rest) = some (a, rest) := by
  cases a <;> rw [parseAlgorithm, parseU32_u32le] <;> rfl

theorem parseMetrics_serializeMetrics (m : CompressionMetrics)
    (h : metricsInRange m) (rest : List Nat) :
    parseMetrics (serializeMetrics m ++ rest) = some (m, rest) := by
  obtain ⟨h1, h2, h3, h4⟩ := h
  rw [serializeMetrics, parseMetrics]
  simp only [List.append_assoc]
  rw [parseU64_u64le, Nat.mod_eq_of_lt h1]
  simp only [Option.bind_eq_bind, Option.some_bind]
  rw [parseU64_u64le, Nat.mod_eq_of_lt h2]
  simp only [Option.some_bind]
  rw [parseU64_u64le, Nat.mod_eq_of_lt h3]
  simp only [Option.some_bind]
  rw [parseU32_u32le, Nat.mod_eq_of_lt h4]
  simp only [Option.some_bind]
  rw [parseAlgorithm_tag]
  rfl

/-- `CoreMemoryBlock { entry, metrics, checksum: u32, parity: Vec<u8> }`. -/
structure CoreMemoryBlock where
  entry : MemoryEntry
  metrics : CompressionMetrics
  checksum : Nat
  parity : List Nat
deriving Repr, DecidableEq

/-- `CoreMemoryBlock::generate_parity`: 16-byte folded XOR
(`parity[i % 16] ^= data[i]`). -/
def generate_parity (e : MemoryEntry) : List Nat :=
  (serializeEntry e).enum.foldl
    (fun par ib => par.set (ib.1 % 16) (Nat.xor (par.getD (ib.1 % 16) 0) ib.2))
    (List.replicate 16 0)

/-- `CoreMemoryBlock::new`. -/
def CoreMemoryBlock.new (e : MemoryEntry) (metrics : CompressionMetrics) :
    CoreMemoryBlock :=
  { entry := e, metrics := metrics,
    checksum := crc32 (serializeEntry e), parity := generate_parity e }

/-- bincode serialization of a `CoreMemoryBlock` (`Vec<u8>` is a `u64`
length prefix plus the raw bytes). -/
def serializeCoreBlock (b : CoreMemoryBlock) : List Nat :=
  serializeEntry b.entry ++ serializeMetrics b.metrics ++ u32le b.checksum ++
    u64le b.parity.length ++ b.parity

/-- Parse a `CoreMemoryBlock` (trailing bytes allowed). -/
def parseCoreBlock (bs : List Nat) : Option (CoreMemoryBlock × List Nat) := do
  let (e, r1) ← parseEntry bs
  let (m, r2) ← parseMetrics r1
  let (checksum, r3) ← parseU32 r2
  let (plen, r4) ← parseU64 r3
  let (parity, r5) ← readBytes plen r4
  some (⟨e, m, checksum, parity⟩, r5)

/-- `CoreMemoryBlock::verify`: checksum equals the CRC-32 of the
serialized entry. -/
def CoreMemoryBlock.verify (b : CoreMemoryBlock) : Bool :=
  decide (b.checksum = crc32 (serializeEntry b.entry))

theorem parseCoreBlock_serializeCoreBlock (b : CoreMemoryBlock)
    (he : entryInRange b.entry) (hm : metricsInRange b.metrics)
    (hc : b.checksum < 4294967296)
    (hp : b.parity.length < 18446744073709551616) (rest : List Nat) :
    parseCoreBlock (serializeCoreBlock b ++ rest) = some (b, rest) := by
  rw [serializeCoreBlock, parseCoreBlock]
  simp only [List.append_assoc]
  rw [parseEntry_serializeEntry b.entry he]
  simp only [Option.bind_eq_bind, Option.some_bind]
  rw [parseMetrics_serializeMetrics b.metrics hm]
  simp only [Option.some_bind]
  rw [parseU32_u32le, Nat.mod_eq_of_lt hc]
  simp only [Option.some_bind]
  rw [parseU64_u64le, Nat.mod_eq_of_lt hp]
  simp only [Option.some_bind]
  rw [readBytes_append]
  rfl

/-- `Stage3Error` (`RedundancyError` carries the epoch it reports). -/
inductive Stage3Error where
  | Io
  | Serialization
  | NotFound (epoch : Nat)
  | RedundancyError (epoch : Nat)
deriving Repr, DecidableEq

/-- `Stage3` state: the index maps an epoch to the primary path
`core_{epoch}.bin` (and offset 0); `primFiles`/`backFiles` are the two
directories, keyed by the epoch embedded in the file name. -/
structure Stage3 where
  index : List (Nat × Nat × Nat)
  primFiles : List (Nat × List Nat)
  backFiles : List (Nat × List Nat)
  algorithm : CompressionAlgorithm
deriving Repr, DecidableEq

/-- `Stage3::new`: creates the two directories and starts with an empty
index — no scan of either directory happens. -/
def Stage3.new (algorithm : CompressionAlgorithm)
    (primFiles backFiles : List (Nat × List Nat)) : Stage3 :=
  { index := [], primFiles := primFiles, backFiles := backFiles,
    algorithm := algorithm }

/-- `File::open` with `create | write` but **no** `truncate`: `write_all`
starting at offset 0 leaves any longer previous tail in place. -/
def writeAllAt0 (old : Option (List Nat)) (bytes : List Nat) : List Nat :=
  match old with
  | none => bytes
  | some o => bytes ++ o.drop bytes.length

/-- `Stage3::store_core_memory`: serializes the entry, compresses it for
the metrics (the compressed bytes themselves are dropped by the source —
only the metrics enter the block), writes the serialized block to
`storage_path/core_{epoch}.bin` and `redundancy_path/core_{epoch}.bin`,
and records the primary path in the index. -/
def Stage3.store_core_memory (s : Stage3) (e : MemoryEntry) : Stage3 :=
  let data := serializeEntry e
  let metrics := ((Compressor.mk s.algorithm).compress data).2
  let block := CoreMemoryBlock.new e metrics
  let encoded := serializeCoreBlock block
  { s with
      primFiles := aInsert s.primFiles e.epoch_pointer
        (writeAllAt0 (alookup s.primFiles e.epoch_pointer) encoded),
      backFiles := aInsert s.backFiles e.epoch_pointer
        (writeAllAt0 (alookup s.backFiles e.epoch_pointer) encoded),
      index := aInsert s.index e.epoch_pointer (e.epoch_pointer, 0) }

/-- `Stage3::read_memory_block`: a missing file (`Io`) or a failed
deserialization both land in the wildcard arm of `get_core_memory`'s
matches, so `Option` captures the distinction the caller observes. -/
def readMemoryBlock (files : List (Nat × List Nat)) (path : Nat) :
    Option CoreMemoryBlock :=
  match alookup files path with
  | none => none
  | some bytes => (parseCoreBlock bytes).map Prod.fst

/-- `Stage3::repair_primary`: rewrites `core_{epoch}.bin` in the primary
directory with the re-serialized block, with `truncate(true)`. -/
def Stage3.repair_primary (s : Stage3) (epoch : Nat) (block : CoreMemoryBlock) :
    Stage3 :=
  { s with primFiles := aInsert s.primFiles epoch (serializeCoreBlock block) }

/-- `Stage3::get_core_memory`: primary first; on parse-or-verify failure
the replica; a verifying replica repairs the primary and is returned;
otherwise `RedundancyError`. -/
def Stage3.get_core_memory (s : Stage3) (epoch : Nat) :
    Stage3 × Except Stage3Error MemoryEntry :=
  match alookup s.index epoch with
  | none => (s, .error (.NotFound epoch))
  | some (primary_path, _) =>
    let tryBackup : Stage3 × Except Stage3Error MemoryEntry :=
      match readMemoryBlock s.backFiles epoch with
      | some block =>
        if block.verify then (s.repair_primary epoch block, .ok block.entry)
        else (s, .error (.RedundancyError epoch))
      | none => (s, .error (.RedundancyError epoch))
    match readMemoryBlock s.primFiles primary_path with
    | some block => if block.verify then (s, .ok block.entry) else tryBackup
    | none => tryBackup

/-- "The overwriting bytes fail parse-or-verify": either deserialization
fails or the parsed block's checksum does not verify. -/
def parseOrVerifyFails (bytes : List Nat) : Bool :=
  match parseCoreBlock bytes with
  | some (b, _) => !b.verify
  | none => true

/-- C5: round-trip of the compressor: for both supported algorithms,
decompressing the first component of `compress(b)` returns `Ok(b)` (for
`LZ4` the payload length must fit the `u32` size prefix of the frame —
every real `Vec<u8>` bincode hands the compressor satisfies this). -/
theorem compress_decompress_roundtrip (alg : CompressionAlgorithm)
    (b : List Nat) (h : b.length < 4294967296) :
    (Compressor.mk alg).decompress ((Compressor.mk alg).compress b).1 = .ok b := by
  cases alg
  · rfl
  · show decompress_size_prepended (compress_prepend_size b) = .ok b
    rw [compress_prepend_size, decompress_size_prepended, parseU32_u32le,
      Nat.mod_eq_of_lt h]
    simp

/-- C5 (witness): the LZ4-framed round-trip at `b = [1, 2, 3]`. -/
theorem compress_decompress_roundtrip_witness :
    ([1, 2, 3] : List Nat).length < 4294967296 ∧
      (Compressor.mk .LZ4).decompress
        ((Compressor.mk .LZ4).compress [1, 2, 3]).1 = .ok [1, 2, 3] :=
  ⟨by decide, compress_decompress_roundtrip .LZ4 [1, 2, 3] (by decide)⟩

theorem store_metrics_in_range (alg : CompressionAlgorithm) (e : MemoryEntry) :
    metricsInRange ((Compressor.mk alg).compress (serializeEntry e)).2 := by
  cases alg <;>
    simp [metricsInRange, Compressor.compress, compress_prepend_size,
      serializeEntry, u32le, u16le]

theorem generate_parity_length (e : MemoryEntry) :
    (generate_parity e).length = 16 := by
  rw [generate_parity]
  have h : ∀ (l : List (Nat × Nat)) (par : List Nat),
      (l.foldl (fun par ib =>
        par.set (ib.1 % 16) (Nat.xor (par.getD (ib.1 % 16) 0) ib.2)) par).length =
      par.length := by
    intro l
    induction l with
    | nil => intro par; rfl
    | cons x xs ih =>
      intro par
      rw [List.foldl_cons, ih, List.length_set]
  rw [h]
  rfl

theorem parseCoreBlock_serializeCoreBlock_mk (e : MemoryEntry)
    (m : CompressionMetrics) (c : Nat) (par : List Nat)
    (he : entryInRange e) (hm : metricsInRange m) (hc : c < 4294967296)
    (hplen : par.length < 18446744073709551616) :
    parseCoreBlock (serializeCoreBlock (⟨e, m, c, par⟩ : CoreMemoryBlock)) =
      some ((⟨e, m, c, par⟩ : CoreMemoryBlock), []) := by
  rw [← List.append_nil (serializeCoreBlock (⟨e, m, c, par⟩ : CoreMemoryBlock))]
  exact parseCoreBlock_serializeCoreBlock ⟨e, m, c, par⟩ he hm hc hplen []

theorem verify_mk_true (e : MemoryEntry) (m : CompressionMetrics) (par : List Nat) :
    (⟨e, m, crc32 (serializeEntry e), par⟩ : CoreMemoryBlock).verify = true := by
  rw [CoreMemoryBlock.verify]
  exact decide_eq_true rfl

/-- If the primary bytes fail parse-or-verify and the replica holds a
verifying block, `get_core_memory` returns the replica's entry and
repairs the primary to the re-serialized replica block. -/
theorem get_core_memory_heals (s : Stage3) (ep : Nat) (bad good : List Nat)
    (blk : CoreMemoryBlock)
    (hidx : alookup s.index ep = some (ep, 0))
    (hprim : alookup s.primFiles ep = some bad)
    (hback : alookup s.backFiles ep = some good)
    (hbad : parseOrVerifyFails bad = true)
    (hgood : parseCoreBlock good = some (blk, []))
    (hv : blk.verify = true) :
    (s.get_core_memory ep).2 = .ok blk.entry ∧
      alookup (s.get_core_memory ep).1.primFiles ep =
        some (serializeCoreBlock blk) := by
  have h1 : readMemoryBlock s.primFiles ep = (parseCoreBlock bad).map Prod.fst := by
    rw [readMemoryBlock, hprim]
  have h2 : readMemoryBlock s.backFiles ep = some blk := by
    rw [readMemoryBlock]
    simp only [hback, hgood, Option.map_some']
  rw [Stage3.get_core_memory]
  simp only [hidx, h1, h2, hv, if_true]
  cases hpb : parseCoreBlock bad with
  | none =>
    simp only [Option.map_none', Stage3.repair_primary, alookup_aInsert_self]
    exact ⟨trivial, trivial⟩
  | some br =>
    have hbv : br.1.verify = false := by
      rw [parseOrVerifyFails, hpb] at hbad
      obtain ⟨b, r⟩ := br
      simpa using hbad
    simp only [Option.map_some', hbv, Bool.false_eq_true, if_false,
      Stage3.repair_primary, alookup_aInsert_self]
    exact ⟨trivial, trivial⟩

/-- If both copies fail parse-or-verify, `get_core_memory` reports
`RedundancyError`. -/
theorem get_core_memory_redundancy (s : Stage3) (ep : Nat) (bad bad2 : List Nat)
    (hidx : alookup s.index ep = some (ep, 0))
    (hprim : alookup s.primFiles ep = some bad)
    (hback : alookup s.backFiles ep = some bad2)
    (hbad : parseOrVerifyFails bad = true)
    (hbad2 : parseOrVerifyFails bad2 = true) :
    (s.get_core_memory ep).2 = .error (.RedundancyError ep) := by
  have h1 : readMemoryBlock s.primFiles ep = (parseCoreBlock bad).map Prod.fst := by
    rw [readMemoryBlock, hprim]
  have h2 : readMemoryBlock s.backFiles ep = (parseCoreBlock bad2).map Prod.fst := by
    rw [readMemoryBlock, hback]
  have hfail : ∀ (bytes : List Nat) (br : CoreMemoryBlock × List Nat),
      parseOrVerifyFails bytes = true → parseCoreBlock bytes = some br →
      br.1.verify = false := by
    intro bytes br hf hpb
    rw [parseOrVerifyFails, hpb] at hf
    obtain ⟨b, r⟩ := br
    simpa using hf
  rw [Stage3.get_core_memory]
  simp only [hidx, h1, h2]
  cases hpb : parseCoreBlock bad with
  | none =>
    cases hpb2 : parseCoreBlock bad2 with
    | none => simp only [Option.map_none']
    | some br2 =>
      simp only [Option.map_none', Option.map_some', hfail bad2 br2 hbad2 hpb2,
        Bool.false_eq_true, if_false]
  | some br =>
    cases hpb2 : parseCoreBlock bad2 with
    | none =>
      simp only [Option.map_none', Option.map_some', hfail bad br hbad hpb,
        Bool.false_eq_true, if_false]
    | some br2 =>
      simp only [Option.map_none', Option.map_some', hfail bad br hbad hpb,
        hfail bad2 br2 hbad2 hpb2, Bool.false_eq_true, if_false]

/-- C3: Stage 3 self-heal.  Store `e` into a Stage 3 whose two
directories do not yet hold a file for `e.epoch` (the `store` open mode
does not truncate, so this is the state the claim's scenario creates);
then overwrite the primary `core_{epoch}.bin` with any bytes `bad` that
fail parse-or-verify (e.g. zeros).  `get_core_memory(e.epoch)` still
returns `Ok(e)`, and afterwards the primary file's bytes are identical
to the replica's.  If the replica is then also overwritten with failing
bytes, `get_core_memory` returns `RedundancyError`. -/
theorem stage3_self_heal (s : Stage3) (e : MemoryEntry) (bad bad2 : List Nat)
    (hr : entryInRange e)
    (hp : alookup s.primFiles e.epoch_pointer = none)
    (hb : alookup s.backFiles e.epoch_pointer = none)
    (hbad : parseOrVerifyFails bad = true)
    (hbad2 : parseOrVerifyFails bad2 = true) :
    (({ s.store_core_memory e with
        primFiles := aInsert (s.store_core_memory e).primFiles e.epoch_pointer bad
      }).get_core_memory e.epoch_pointer).2 = .ok e ∧
    alookup (({ s.store_core_memory e with
        primFiles := aInsert (s.store_core_memory e).primFiles e.epoch_pointer bad
      }).get_core_memory e.epoch_pointer).1.primFiles e.epoch_pointer =
      alookup (s.store_core_memory e).backFiles e.epoch_pointer ∧
    (({ s.store_core_memory e with
        primFiles := aInsert (s.store_core_memory e).primFiles e.epoch_pointer bad,
        backFiles := aInsert (s.store_core_memory e).backFiles e.epoch_pointer bad2
      }).get_core_memory e.epoch_pointer).2 =
      .error (.RedundancyError e.epoch_pointer) := by
  have hplen : (generate_parity e).length < 18446744073709551616 := by
    rw [generate_parity_length]
    norm_num
  have hgood := parseCoreBlock_serializeCoreBlock_mk e
    ((Compressor.mk s.algorithm).compress (serializeEntry e)).2
    (crc32 (serializeEntry e)) (generate_parity e) hr
    (store_metrics_in_range s.algorithm e) (crc32_lt (serializeEntry e)) hplen
  have hv := verify_mk_true e
    ((Compressor.mk s.algorithm).compress (serializeEntry e)).2 (generate_parity e)
  have hsi : (s.store_core_memory e).index =
      aInsert s.index e.epoch_pointer (e.epoch_pointer, 0) := by
    simp only [Stage3.store_core_memory]
  have hsp : (s.store_core_memory e).primFiles =
      aInsert s.primFiles e.epoch_pointer (serializeCoreBlock
        ⟨e, ((Compressor.mk s.algorithm).compress (serializeEntry e)).2,
          crc32 (serializeEntry e), generate_parity e⟩) := by
    simp only [Stage3.store_core_memory, CoreMemoryBlock.new, hp, writeAllAt0]
  have hsb : (s.store_core_memory e).backFiles =
      aInsert s.backFiles e.epoch_pointer (serializeCoreBlock
        ⟨e, ((Compressor.mk s.algorithm).compress (serializeEntry e)).2,
          crc32 (serializeEntry e), generate_parity e⟩) := by
    simp only [Stage3.store_core_memory, CoreMemoryBlock.new, hb, writeAllAt0]
  obtain ⟨hheal, hrepair⟩ := get_core_memory_heals
    { s.store_core_memory e with
        primFiles := aInsert (s.store_core_memory e).primFiles e.epoch_pointer bad }
    e.epoch_pointer bad
    (serializeCoreBlock
      ⟨e, ((Compressor.mk s.algorithm).compress (serializeEntry e)).2,
        crc32 (serializeEntry e), generate_parity e⟩)
    ⟨e, ((Compressor.mk s.algorithm).compress (serializeEntry e)).2,
      crc32 (serializeEntry e), generate_parity e⟩
    (by show alookup (s.store_core_memory e).index e.epoch_pointer = _
        rw [hsi]; exact alookup_aInsert_self _ _ _)
    (by show alookup (aInsert (s.store_core_memory e).primFiles e.epoch_pointer bad)
          e.epoch_pointer = some bad
        exact alookup_aInsert_self _ _ _)
    (by show alookup (s.store_core_memory e).backFiles e.epoch_pointer = _
        rw [hsb]; exact alookup_aInsert_self _ _ _)
    hbad hgood hv
  refine ⟨hheal, ?_, ?_⟩
  · rw [hrepair, hsb]
    rw [alookup_aInsert_self]
  · exact get_core_memory_redundancy
      { s.store_core_memory e with
          primFiles := aInsert (s.store_core_memory e).primFiles e.epoch_pointer bad,
          backFiles := aInsert (s.store_core_memory e).backFiles e.epoch_pointer bad2 }
      e.epoch_pointer bad bad2
      (by show alookup (s.store_core_memory e).index e.epoch_pointer = _
          rw [hsi]; exact alookup_aInsert_self _ _ _)
      (by show alookup (aInsert (s.store_core_memory e).primFiles e.epoch_pointer bad)
            e.epoch_pointer = some bad
          exact alookup_aInsert_self _ _ _)
      (by show alookup (aInsert (s.store_core_memory e).backFiles e.epoch_pointer bad2)
            e.epoch_pointer = some bad2
          exact alookup_aInsert_self _ _ _)
      hbad hbad2

/-- C3 (witness): one concrete self-heal run: entry `(100, 1, 900)` is
stored into a fresh Stage 3, the primary is overwritten with 100 zero
bytes (they parse to an all-zero block whose checksum 0 fails the CRC),
and the replica with 60 zero bytes for the both-fail case. -/
theorem stage3_self_heal_witness :
    entryInRange ⟨100, 1, 900, 0, 0⟩ ∧
    alookup (Stage3.new .LZ4 [] []).primFiles 100 = none ∧
    alookup (Stage3.new .LZ4 [] []).backFiles 100 = none ∧
    parseOrVerifyFails (List.replicate 100 0) = true ∧
    parseOrVerifyFails (List.replicate 60 0) = true ∧
    ((({ (Stage3.new .LZ4 [] []).store_core_memory ⟨100, 1, 900, 0, 0⟩ with
        primFiles := aInsert
          ((Stage3.new .LZ4 [] []).store_core_memory ⟨100, 1, 900, 0, 0⟩).primFiles
          100 (List.replicate 100 0)
      }).get_core_memory 100).2 = .ok ⟨100, 1, 900, 0, 0⟩ ∧
    alookup ((({ (Stage3.new .LZ4 [] []).store_core_memory ⟨100, 1, 900, 0, 0⟩ with
        primFiles := aInsert
          ((Stage3.new .LZ4 [] []).store_core_memory ⟨100, 1, 900, 0, 0⟩).primFiles
          100 (List.replicate 100 0)
      }).get_core_memory 100).1).primFiles 100 =
      alookup ((Stage3.new .LZ4 [] []).store_core_memory
        ⟨100, 1, 900, 0, 0⟩).backFiles 100 ∧
    (({ (Stage3.new .LZ4 [] []).store_core_memory ⟨100, 1, 900, 0, 0⟩ with
        primFiles := aInsert
          ((Stage3.new .LZ4 [] []).store_core_memory ⟨100, 1, 900, 0, 0⟩).primFiles
          100 (List.replicate 100 0),
        backFiles := aInsert
          ((Stage3.new .LZ4 [] []).store_core_memory ⟨100, 1, 900, 0, 0⟩).backFiles
          100 (List.replicate 60 0)
      }).get_core_memory 100).2 = .error (.RedundancyError 100)) :=
  ⟨by decide, rfl, rfl, by decide, by decide,
    stage3_self_heal (Stage3.new .LZ4 [] []) ⟨100, 1, 900, 0, 0⟩
      (List.replicate 100 0) (List.replicate 60 0)
      (by decide) rfl rfl (by decide) (by decide)⟩

/-- C10: a freshly constructed `Stage3` has an empty index (`new` never
scans either directory), so every lookup — including one for an epoch
whose primary and replica files both exist on disk and hold a verifying
block — returns `NotFound` and leaves the state unchanged. -/
theorem stage3_new_ignores_existing_files (alg : CompressionAlgorithm)
    (primFiles backFiles : List (Nat × List Nat)) (epoch : Nat)
    (bytes : List Nat) (blk : CoreMemoryBlock) (rest : List Nat)
    (hprim : alookup primFiles epoch = some bytes)
    (hback : alookup backFiles epoch = some bytes)
    (hparse : parseCoreBlock bytes = some (blk, rest))
    (hv : blk.verify = true) :
    (Stage3.new alg primFiles backFiles).get_core_memory epoch =
      (Stage3.new alg primFiles backFiles, .error (.NotFound epoch)) :=
  rfl

/-- A concrete verifying core-memory block for the C10 witness. -/
def c10block : CoreMemoryBlock :=
  CoreMemoryBlock.new ⟨100, 1, 900, 0, 0⟩ ⟨16, 20, 0, 0, .LZ4⟩

/-- C10 (witness): both directories hold the verifying file for epoch
100, yet the fresh instance reports `NotFound`. -/
theorem stage3_new_ignores_existing_files_witness :
    alookup [(100, serializeCoreBlock c10block)] 100 =
      some (serializeCoreBlock c10block) ∧
    parseCoreBlock (serializeCoreBlock c10block) = some (c10block, []) ∧
    c10block.verify = true ∧
    (Stage3.new .LZ4 [(100, serializeCoreBlock c10block)]
        [(100, serializeCoreBlock c10block)]).get_core_memory 100 =
      (Stage3.new .LZ4 [(100, serializeCoreBlock c10block)]
        [(100, serializeCoreBlock c10block)], .error (.NotFound 100)) :=
  ⟨by decide, by decide, by decide,
    stage3_new_ignores_existing_files .LZ4 [(100, serializeCoreBlock c10block)]
      [(100, serializeCoreBlock c10block)] 100 (serializeCoreBlock c10block)
      c10block [] (by decide) (by decide) (by decide) (by decide)⟩

/-! ### ErasureCoder (src/memory/error_correction.rs) -/

/-- `ReedSolomonEC` configuration. -/
structure ReedSolomonEC where
  data_shards : Nat
  parity_shards : Nat
deriving Repr, DecidableEq

/-- `ReedSolomonEC::new`: `ReedSolomon::new` (external crate) rejects
zero data shards, zero parity shards, and more than 256 total shards. -/
def ReedSolomonEC.new (data_shards parity_shards : Nat) :
    Except String ReedSolomonEC :=
  if data_shards = 0 ∨ parity_shards = 0 ∨ 256 < data_shards + parity_shards then
    .error "Failed to create Reed-Solomon"
  else .ok ⟨data_shards, parity_shards⟩

/-- `slice.chunks(size)` unrolled on a fuel bound (with `fuel ≥ length`
the fuel-exhausted arm is unreachable); structural, so concrete inputs
evaluate in the kernel. -/
def chunksAux (size : Nat) : Nat → List Nat → List (List Nat)
  | _, [] => []
  | 0, _ :: _ => []
  | fuel + 1, x :: xs =>
    (x :: xs).take size :: chunksAux size fuel ((x :: xs).drop size)

/-- `data.chunks(shard_size)` (Rust panics when the size is 0; `encode`
guards that case before calling). -/
def chunks (size : Nat) (l : List Nat) : List (List Nat) :=
  if size = 0 then [] else chunksAux size l.length l

/-- Modelled from the spec: the parity computation of the external
`reed_solomon_erasure` crate (the spec's reference choice is
"Reed–Solomon over GF(2^8)").  `rs.encode` leaves the `D` data shards
unchanged and fills the `P` parity shards as a function of the data
shards; the model abstracts that function as an `rsParity` parameter,
and the theorems below hold for every choice producing `P` shards.  The
concrete instance used in the counterexample is `xorParity`, the
byte-wise XOR of the data shards — exactly the GF(2^8) Reed–Solomon
parity when `P = 1`. -/
def xorParity (dataShards : List (List Nat)) (p : Nat) : List (List Nat) :=
  List.replicate p
    (dataShards.foldr (fun s acc => s.zipWith Nat.xor acc)
      (List.replicate (dataShards.headD []).length 0))

/-- `ReedSolomonEC::encode`: `shard_size = ceil(len / D)`; the payload is
split into chunks, each copied into a zeroed shard of length
`shard_size` (the last chunk is zero-padded, unreached shards stay
all-zero), and the crate fills the parity shards.  `data.chunks(0)` —
the empty payload — panics in Rust; the panic is modelled as an error. -/
def ReedSolomonEC.encode (rs : ReedSolomonEC)
    (rsParity : List (List Nat) → Nat → List (List Nat)) (data : List Nat) :
    Except String (List (List Nat)) :=
  let shard_size := (data.length + rs.data_shards - 1) / rs.data_shards
  if shard_size = 0 then .error "panic: chunk size must be non-zero"
  else
    let dataShards :=
      (chunks shard_size data).map
        (fun c => c ++ List.replicate (shard_size - c.length) 0) ++
      List.replicate (rs.data_shards - (chunks shard_size data).length)
        (List.replicate shard_size 0)
    .ok (dataShards ++ rsParity dataShards rs.parity_shards)

/-- `ReedSolomonEC::reconstruct`: the shard vector is `Vec<Vec<u8>>`, so
every shard passed in counts as present — the crate's `reconstruct`
checks the shard count against the configuration and, with nothing
missing, changes nothing; the data shards are then concatenated
verbatim into the result. -/
def ReedSolomonEC.reconstruct (rs : ReedSolomonEC)
    (shards : List (List Nat)) : Except String (List Nat) :=
  if shards.length = rs.data_shards + rs.parity_shards then
    .ok ((shards.take rs.data_shards).flatten)
  else .error "Reconstruction failed"

theorem chunksAux_nil (ss fuel : Nat) : chunksAux ss fuel [] = [] := by
  cases fuel <;> rfl

theorem chunksAux_length_mul_ge (ss : Nat) (hss : 0 < ss) :
    ∀ (fuel : Nat) (l : List Nat), l.length ≤ fuel →
      l.length ≤ (chunksAux ss fuel l).length * ss := by
  intro fuel
  induction fuel with
  | zero =>
    intro l hl
    have hnil : l = [] := List.eq_nil_of_length_eq_zero (by omega)
    subst hnil
    simp [chunksAux_nil]
  | succ fuel ih =>
    intro l hl
    match l with
    | [] => simp [chunksAux_nil]
    | x :: xs =>
      simp only [List.length_cons] at hl
      rw [chunksAux]
      have ihd := ih ((x :: xs).drop ss)
        (by rw [List.length_drop, List.length_cons]; omega)
      rw [List.length_drop, List.length_cons] at ihd
      simp only [List.length_cons]
      have hmul : ((chunksAux ss fuel ((x :: xs).drop ss)).length + 1) * ss =
          (chunksAux ss fuel ((x :: xs).drop ss)).length * ss + ss := by ring
      omega

theorem chunksAux_length_mul_lt (ss : Nat) (hss : 0 < ss) :
    ∀ (fuel : Nat) (l : List Nat), l.length ≤ fuel →
      (chunksAux ss fuel l).length * ss < l.length + ss := by
  intro fuel
  induction fuel with
  | zero =>
    intro l hl
    have hnil : l = [] := List.eq_nil_of_length_eq_zero (by omega)
    subst hnil
    simpa [chunksAux_nil] using hss
  | succ fuel ih =>
    intro l hl
    match l with
    | [] => simpa [chunksAux_nil] using hss
    | x :: xs =>
      simp only [List.length_cons] at hl
      rw [chunksAux]
      have ihd := ih ((x :: xs).drop ss)
        (by rw [List.length_drop, List.length_cons]; omega)
      rw [List.length_drop, List.length_cons] at ihd
      simp only [List.length_cons]
      have hmul : ((chunksAux ss fuel ((x :: xs).drop ss)).length + 1) * ss =
          (chunksAux ss fuel ((x :: xs).drop ss)).length * ss + ss := by ring
      by_cases hc : xs.length + 1 ≤ ss
      · have hdnil : (x :: xs).drop ss = [] := by
          apply List.drop_eq_nil_of_le
          simpa using hc
        rw [hdnil, chunksAux_nil] at ihd hmul ⊢
        simp only [List.length_nil, Nat.zero_mul, Nat.zero_add] at ihd hmul ⊢
        omega
      · omega

theorem chunksAux_padded_flatten (ss : Nat) (hss : 0 < ss) :
    ∀ (fuel : Nat) (l : List Nat), l.length ≤ fuel →
      ((chunksAux ss fuel l).map
        (fun c => c ++ List.replicate (ss - c.length) 0)).flatten =
      l ++ List.replicate ((chunksAux ss fuel l).length * ss - l.length) 0 := by
  intro fuel
  induction fuel with
  | zero =>
    intro l hl
    have hnil : l = [] := List.eq_nil_of_length_eq_zero (by omega)
    subst hnil
    simp [chunksAux_nil]
  | succ fuel ih =>
    intro l hl
    match l with
    | [] => simp [chunksAux_nil]
    | x :: xs =>
      simp only [List.length_cons] at hl
      rw [chunksAux, List.map_cons, List.flatten_cons]
      have ihd := ih ((x :: xs).drop ss)
        (by rw [List.length_drop, List.length_cons]; omega)
      have hged := chunksAux_length_mul_ge ss hss fuel ((x :: xs).drop ss)
        (by rw [List.length_drop, List.length_cons]; omega)
      rw [ihd]
      by_cases hc : (x :: xs).length ≤ ss
      · have hdnil : (x :: xs).drop ss = [] := List.drop_eq_nil_of_le hc
        have htake : (x :: xs).take ss = x :: xs := List.take_of_length_le hc
        rw [hdnil, chunksAux_nil, htake]
        simp only [List.length_nil, List.length_cons, List.length_singleton,
          Nat.zero_mul, Nat.one_mul, Nat.sub_self, List.replicate_zero,
          List.nil_append, List.append_nil]
        norm_num
      · simp only [List.length_cons] at hc
        have htlen : ((x :: xs).take ss).length = ss := by
          rw [List.length_take, List.length_cons]
          exact min_eq_left (by omega)
        rw [htlen, Nat.sub_self, List.replicate_zero, List.append_nil,
          ← List.append_assoc, List.take_append_drop]
        have harith : (chunksAux ss fuel ((x :: xs).drop ss)).length * ss -
            ((x :: xs).drop ss).length =
            ((x :: xs).take ss :: chunksAux ss fuel ((x :: xs).drop ss)).length * ss -
            (x :: xs).length := by
          rw [List.length_drop]
          simp only [List.length_cons]
          have hmul : ((chunksAux ss fuel ((x :: xs).drop ss)).length + 1) * ss =
              (chunksAux ss fuel ((x :: xs).drop ss)).length * ss + ss := by ring
          rw [List.length_drop, List.length_cons] at hged
          omega
        rw [harith]

theorem flatten_replicate_zero (k ss : Nat) :
    (List.replicate k (List.replicate ss (0 : Nat))).flatten =
      List.replicate (k * ss) 0 := by
  induction k with
  | zero => simp
  | succ k ih =>
    rw [List.replicate_succ, List.flatten_cons, ih, ← List.replicate_add]
    congr 1
    ring

/-- C4 (counterexample): `D = 2`, `P = 1`, payload `[1, 2, 3]`, and
**zero** erasures (a subset of at most `P`): `encode` pads the payload to
two shards `[1,2]`, `[3,0]` (parity `[2,2]`), and `reconstruct` on the
full, intact shard set returns the concatenated data shards
`[1, 2, 3, 0]` — the zero-padded payload, not the original `b`. -/
theorem reconstruct_returns_padded_payload :
    (ReedSolomonEC.encode ⟨2, 1⟩ xorParity [1, 2, 3]).bind
      (ReedSolomonEC.reconstruct ⟨2, 1⟩) = .ok [1, 2, 3, 0] ∧
    ([1, 2, 3, 0] : List Nat) ≠ [1, 2, 3] := by
  constructor
  · rfl
  · decide

/-- C4 (amended): for every `D > 0`, every `P`, every non-empty payload
(`encode` panics on an empty one), and every parity computation
producing `P` shards, reconstructing the full shard set returns the
payload zero-padded to `D · ⌈len/D⌉` bytes; it equals `b` exactly when
`D` divides `len(b)`.  (The `Vec<Vec<u8>>` shard API offers no erasure
marking, so no shard-loss case arises in the code's own terms.) -/
theorem encode_reconstruct_padded (D P : Nat) (data : List Nat)
    (rsParity : List (List Nat) → Nat → List (List Nat))
    (hD : 0 < D) (hdata : data ≠ [])
    (hP : ∀ ds, (rsParity ds P).length = P) :
    (ReedSolomonEC.encode ⟨D, P⟩ rsParity data).bind
      (ReedSolomonEC.reconstruct ⟨D, P⟩) =
      .ok (data ++ List.replicate
        (D * ((data.length + D - 1) / D) - data.length) 0) ∧
    (D ∣ data.length →
      (ReedSolomonEC.encode ⟨D, P⟩ rsParity data).bind
        (ReedSolomonEC.reconstruct ⟨D, P⟩) = .ok data) := by
  have hlen : 0 < data.length := List.length_pos.mpr hdata
  have hss : 0 < (data.length + D - 1) / D :=
    (Nat.one_le_div_iff hD).mpr (by omega)
  have hDss : data.length ≤ D * ((data.length + D - 1) / D) := by
    have h1 := Nat.div_add_mod (data.length + D - 1) D
    have h2 : (data.length + D - 1) % D < D := Nat.mod_lt _ hD
    omega
  have hch : chunks ((data.length + D - 1) / D) data =
      chunksAux ((data.length + D - 1) / D) data.length data := by
    rw [chunks, if_neg (by omega)]
  have hge := chunksAux_length_mul_ge _ hss data.length data le_rfl
  have hlt := chunksAux_length_mul_lt _ hss data.length data le_rfl
  have hcount : (chunksAux ((data.length + D - 1) / D) data.length data).length ≤ D := by
    have h3 : (chunksAux ((data.length + D - 1) / D) data.length data).length *
        ((data.length + D - 1) / D) < (D + 1) * ((data.length + D - 1) / D) := by
      have h4 : (D + 1) * ((data.length + D - 1) / D) =
          D * ((data.length + D - 1) / D) + (data.length + D - 1) / D := by ring
      omega
    exact Nat.le_of_lt_succ (Nat.lt_of_mul_lt_mul_right h3)
  have hflat := chunksAux_padded_flatten _ hss data.length data le_rfl
  have hmain : (ReedSolomonEC.encode ⟨D, P⟩ rsParity data).bind
      (ReedSolomonEC.reconstruct ⟨D, P⟩) =
      .ok (data ++ List.replicate
        (D * ((data.length + D - 1) / D) - data.length) 0) := by
    rw [ReedSolomonEC.encode]
    simp only [hch]
    rw [if_neg (by omega)]
    rw [Except.bind, ReedSolomonEC.reconstruct]
    have hdslen : ((chunksAux ((data.length + D - 1) / D) data.length data).map
          (fun (c : List Nat) => c ++ List.replicate ((data.length + D - 1) / D - c.length) 0) ++
        List.replicate
          (D - (chunksAux ((data.length + D - 1) / D) data.length data).length)
          (List.replicate ((data.length + D - 1) / D) 0)).length = D := by
      rw [List.length_append, List.length_map, List.length_replicate]
      omega
    rw [if_pos (by rw [List.length_append, hdslen, hP]),
      List.take_left' (by rw [hdslen])]
    rw [List.flatten_append, hflat, flatten_replicate_zero]
    rw [List.append_assoc, ← List.replicate_add]
    congr 3
    have h5 : (D - (chunksAux ((data.length + D - 1) / D) data.length data).length) *
        ((data.length + D - 1) / D) =
        D * ((data.length + D - 1) / D) -
        (chunksAux ((data.length + D - 1) / D) data.length data).length *
          ((data.length + D - 1) / D) := Nat.sub_mul _ _ _
    have h6 : (chunksAux ((data.length + D - 1) / D) data.length data).length *
        ((data.length + D - 1) / D) ≤ D * ((data.length + D - 1) / D) :=
      Nat.mul_le_mul_right _ hcount
    omega
  refine ⟨hmain, fun hdvd => ?_⟩
  obtain ⟨q, hq⟩ := hdvd
  have hq' : data.length = q * D := by rw [hq, Nat.mul_comm]
  have hq1 : 0 < q := by
    rcases Nat.eq_zero_or_pos q with h | h
    · subst h
      simp at hq'
      omega
    · exact h
  have hssq : (data.length + D - 1) / D = q := by
    have hsplit : data.length + D - 1 = (D - 1) + D * q := by omega
    rw [hsplit, Nat.add_mul_div_left _ _ hD, Nat.div_eq_of_lt (by omega)]
    omega
  rw [hmain, hssq]
  rw [show D * q - data.length = 0 by omega, List.replicate_zero, List.append_nil]

/-- C4 (witness for the amended theorem): `D = 2`, `P = 1`,
`b = [1, 2, 3]` with the XOR parity. -/
theorem encode_reconstruct_padded_witness :
    (0 < 2) ∧ (([1, 2, 3] : List Nat) ≠ []) ∧
    (∀ ds, (xorParity ds 1).length = 1) ∧
    ((ReedSolomonEC.encode ⟨2, 1⟩ xorParity [1, 2, 3]).bind
      (ReedSolomonEC.reconstruct ⟨2, 1⟩) =
      .ok ([1, 2, 3] ++ List.replicate
        (2 * ((([1, 2, 3] : List Nat).length + 2 - 1) / 2) -
          ([1, 2, 3] : List Nat).length) 0) ∧
    (2 ∣ ([1, 2, 3] : List Nat).length →
      (ReedSolomonEC.encode ⟨2, 1⟩ xorParity [1, 2, 3]).bind
        (ReedSolomonEC.reconstruct ⟨2, 1⟩) = .ok [1, 2, 3])) :=
  ⟨by decide, by decide, fun ds => rfl,
    encode_reconstruct_padded 2 1 [1, 2, 3] xorParity (by decide) (by decide)
      (fun ds => rfl)⟩

end MeM8
